import Mathlib

/-!
# auth-service: order-control store and Organization aggregate

A shallow embedding of

* `infrastructure/denormalizers/mongodb/db/dynamodb.js` (class `DynamoOrderControlDb`),
  together with the part of DynamoDB's `UpdateItem` / `GetItem` behaviour the class relies on;
* `domain/models/organization.class.js` (class `Organization`).

Asynchronous calls are modelled as state-passing functions: a call takes the table (or the
aggregate) before the call and returns the table (or aggregate) after it together with the
value the promise resolves to or the error it rejects / throws with.
-/

namespace AuthService

/-! ## DynamoDB: items, expressions, `UpdateItem`, `GetItem` -/

/-- DynamoDB attribute values used by the order-control table: `{N: ...}` and `{S: ...}`.
After `unwrap` they are the JavaScript number, respectively string, of the same content:
`N n` is the number attribute that reads as the JavaScript number `n`. -/
inductive AttributeValue where
  | N (n : Nat)
  | S (s : String)
  deriving DecidableEq, Repr

/-- JavaScript truthiness of an unwrapped attribute: `0` and `''` are falsy. -/
def AttributeValue.truthy : AttributeValue → Bool
  | .N n => n != 0
  | .S s => s != ""

/-- `wrap1` of dynamodb-data-types on a JavaScript number. -/
def wrap1Number (n : Nat) : AttributeValue := .N n

/-- `wrap1` of dynamodb-data-types on a JavaScript string. -/
def wrap1String (s : String) : AttributeValue := .S s

/-- An item: its attributes by name. -/
abbrev Item := List (String × AttributeValue)

/-- Value of attribute `name` of an item, if the item has it. -/
def Item.attr (item : Item) (name : String) : Option AttributeValue :=
  item.lookup name

/-- `SET name = v` on an item: overwrite the attribute if present, add it otherwise. -/
def Item.setAttr (item : Item) (name : String) (v : AttributeValue) : Item :=
  if (item.lookup name).isSome then
    item.map (fun p => if p.1 == name then (name, v) else p)
  else
    item ++ [(name, v)]

/-- A table with hash key `StreamId`: the item stored under each key value, if any. -/
abbrev Table := AttributeValue → Option Item

/-- Store `item` under `key`. -/
def Table.put (t : Table) (key : AttributeValue) (item : Item) : Table :=
  fun k => if k = key then some item else t k

/-- The condition expressions `updateOne` builds. -/
inductive Condition where
  | attributeNotExists (name : String)
  | eq (name : String) (value : String)
  | or (a b : Condition)
  deriving DecidableEq, Repr

/-- Attribute-name placeholders (`#...`) a condition mentions. -/
def Condition.names : Condition → List String
  | .attributeNotExists n => [n]
  | .eq n _ => [n]
  | .or a b => a.names ++ b.names

/-- Attribute-value placeholders (`:...`) a condition mentions. -/
def Condition.values : Condition → List String
  | .attributeNotExists _ => []
  | .eq _ v => [v]
  | .or a b => a.values ++ b.values

/-- Evaluate a condition on the stored item (`[]` when there is none). A comparison with a
missing attribute, or between values of different types, is false. -/
def Condition.eval (names : List (String × String)) (values : List (String × AttributeValue))
    (item : Item) : Condition → Bool
  | .attributeNotExists n =>
    match names.lookup n with
    | some a => (item.attr a).isNone
    | none => false
  | .eq n v =>
    match names.lookup n, values.lookup v with
    | some a, some w => item.attr a == some w
    | _, _ => false
  | .or a b => a.eval names values item || b.eval names values item

/-- The errors of `UpdateItem` that do not depend on the network. -/
inductive AWSError where
  | ConditionalCheckFailedException
  | ValidationException
  deriving DecidableEq, Repr

/-- Parameters of `updateItem` as `updateOne` fills them. `UpdateExpression` is
`SET <name placeholder> = <value placeholder>`. -/
structure UpdateItemInput where
  ExpressionAttributeNames : List (String × String)
  ExpressionAttributeValues : List (String × AttributeValue)
  Key : AttributeValue
  ConditionExpression : Condition
  UpdateExpression : String × String

/-- The smallest number DynamoDB refuses as too large: the double that JavaScript prints as
`1e+126`. DynamoDB numbers go up to `9.99...E+125`, and `wrap1` sends a number as the string
JavaScript prints for it. -/
def dynamoNumberLimit : Nat :=
  999999999999999924867761618992882042544670869834838461439225972225294199975793026603163493762817653751530058413655532282839040

/-- DynamoDB's validation of an attribute value: a number is within the supported range. -/
def AttributeValue.validValue : AttributeValue → Bool
  | .N n => decide (n < dynamoNumberLimit)
  | .S _ => true

/-- DynamoDB's validation of the value of the key attribute `StreamId`, a partition key of
type string: not the empty string, and at most 2048 bytes in UTF-8. -/
def AttributeValue.validKey : AttributeValue → Bool
  | .S s => s != "" && decide (s.utf8ByteSize ≤ 2048)
  | .N _ => false

/-- DynamoDB's validation of a request: the key is a valid key; the values are valid; each
placeholder used is defined, each one defined is used. -/
def UpdateItemInput.valid (p : UpdateItemInput) : Bool :=
  let usedNames := p.UpdateExpression.1 :: p.ConditionExpression.names
  let usedValues := p.UpdateExpression.2 :: p.ConditionExpression.values
  p.Key.validKey
    && p.ExpressionAttributeValues.all (fun q => q.2.validValue)
    && usedNames.all (fun n => (p.ExpressionAttributeNames.lookup n).isSome)
    && usedValues.all (fun v => (p.ExpressionAttributeValues.lookup v).isSome)
    && p.ExpressionAttributeNames.all (fun q => usedNames.contains q.1)
    && p.ExpressionAttributeValues.all (fun q => usedValues.contains q.1)

/-- `dynamodb.updateItem(params).promise()` with `ReturnValues: "ALL_NEW"`: the table after
the call, and the new item or the error. A request that fails validation is rejected before
the condition is looked at. A rejected call leaves the table as it was. An update of a key
with no item creates the item from the key. -/
def updateItem (t : Table) (p : UpdateItemInput) : Table × Except AWSError Item :=
  if !p.valid then (t, .error .ValidationException)
  else
    let old : Item := (t p.Key).getD []
    if p.ConditionExpression.eval p.ExpressionAttributeNames p.ExpressionAttributeValues old then
      match p.ExpressionAttributeNames.lookup p.UpdateExpression.1,
            p.ExpressionAttributeValues.lookup p.UpdateExpression.2 with
      | some a, some v =>
        let base : Item := (t p.Key).getD [("StreamId", p.Key)]
        let item := base.setAttr a v
        (t.put p.Key item, .ok item)
      | _, _ => (t, .error .ValidationException)
    else (t, .error .ConditionalCheckFailedException)

/-- `dynamodb.getItem(params).promise()` followed by `unwrap(response.Item)`: the item's
attributes, none at all when there is no item. -/
def getItem (t : Table) (key : AttributeValue) : Item :=
  (t key).getD []

/-! ## `DynamoOrderControlDb` -/

/-- Result of `getOne`. -/
structure StreamRevision where
  streamId : AttributeValue
  eventId : AttributeValue
  deriving DecidableEq, Repr

/-- `getOne(streamId)`: `item.StreamId || streamId` and `item.LastProcessedEventId || 0`. -/
def getOne (db : Table) (streamId : String) : StreamRevision :=
  let item := getItem db (wrap1String streamId)
  { streamId :=
      match item.attr "StreamId" with
      | some v => if v.truthy then v else .S streamId
      | none => .S streamId
    eventId :=
      match item.attr "LastProcessedEventId" with
      | some v => if v.truthy then v else .N 0
      | none => .N 0 }

/-- The JavaScript sum `n + 1` for a number `n` that is a non-negative integer, in double
precision with rounding to nearest, ties to even: exact below `2 ^ 53`; between `2 ^ 53`
and `2 ^ 54`, where the doubles are the even integers, `n + 1` lies half way between `n` and
`n + 2` and the one with the even significand is taken; from `2 ^ 54` on the sum is `n`. -/
def plusOne (n : Nat) : Nat :=
  if n < 2 ^ 53 then n + 1
  else if n < 2 ^ 54 then (if n % 4 = 0 then n else n + 2)
  else n

/-- `newEventId || lastEventId + 1`, where `none` is an omitted argument. -/
def defaultNewEventId (lastEventId : Nat) (newEventId : Option Nat) : Nat :=
  match newEventId with
  | some n => if n != 0 then n else plusOne lastEventId
  | none => plusOne lastEventId

/-- The `params` object `updateOne` passes to `updateItem`. -/
def updateOneParams (streamId : String) (lastEventId : Nat) (newEventId : Option Nat) :
    UpdateItemInput :=
  let newEventId := defaultNewEventId lastEventId newEventId
  let exprAttrs : List (String × AttributeValue) :=
    [(":lpei", wrap1Number lastEventId), (":npei", wrap1Number newEventId)]
  let (exprAttrs, conditionalExp) :=
    if lastEventId = 0 then
      ((exprAttrs ++ [(":zero", wrap1Number 0)]).filter (fun q => q.1 != ":lpei"),
        Condition.or (.attributeNotExists "#LPEI") (.eq "#LPEI" ":zero"))
    else
      (exprAttrs, Condition.eq "#LPEI" ":lpei")
  { ExpressionAttributeNames := [("#LPEI", "LastProcessedEventId")]
    ExpressionAttributeValues := exprAttrs
    Key := wrap1String streamId
    ConditionExpression := conditionalExp
    UpdateExpression := ("#LPEI", ":npei") }

/-- `updateOne(streamId, lastEventId, newEventId)`. -/
def updateOne (db : Table) (streamId : String) (lastEventId : Nat) (newEventId : Option Nat) :
    Table × Except AWSError Item :=
  updateItem db (updateOneParams streamId lastEventId newEventId)

/-- One entry of `updateMultiple`: `{ streamId, last, new }`, respectively the value
`{ last, new }` stored under key `streamId` of the object form. -/
structure UpdateEntry where
  streamId : String
  last : Nat
  new : Option Nat
  deriving DecidableEq, Repr

/-- The argument of `updateMultiple`: an array of entries, an object from stream ids to
`{ last, new }` (given by its entries in `Object.keys` order), or anything else. -/
inductive Updates where
  | array (entries : List UpdateEntry)
  | object (entries : List UpdateEntry)
  | other

/-- The `updateOne` calls of a list of entries, issued in order; each resolves or rejects
on its own, and a rejected one does not stop the later ones. DynamoDB applies every single
request atomically; the requests are taken to reach the table in the order they are issued. -/
def updateAll (db : Table) : List UpdateEntry → Table × List (Except AWSError Item)
  | [] => (db, [])
  | e :: es =>
    let r := updateOne db e.streamId e.last e.new
    let rs := updateAll r.1 es
    (rs.1, r.2 :: rs.2)

/-- `updateMultiple(updates)`: the table after all requests, and the outcomes `Promise.all`
is given (`none` when the argument is neither an array nor an object and nothing is done). -/
def updateMultiple (db : Table) : Updates → Table × Option (List (Except AWSError Item))
  | .array entries => let r := updateAll db entries; (r.1, some r.2)
  | .object entries => let r := updateAll db entries; (r.1, some r.2)
  | .other => (db, none)

/-- The stored last-processed revision of a stream, as a number: what `getOne` reads. -/
def storedRevision (db : Table) (streamId : String) : Nat :=
  match (getOne db streamId).eventId with
  | .N n => n
  | .S _ => 0

/-- The `LastProcessedEventId` attribute of the stream's record, if there is one. -/
def lastProcessedEventId (db : Table) (streamId : String) : Option AttributeValue :=
  ((db (wrap1String streamId)).getD []).attr "LastProcessedEventId"

/-- A call on the order-control store. -/
inductive Call where
  | updateOne (streamId : String) (lastEventId : Nat) (newEventId : Option Nat)
  | updateMultiple (updates : Updates)

/-- The table after a call. -/
def Call.run (db : Table) : Call → Table
  | .updateOne s l n => (AuthService.updateOne db s l n).1
  | .updateMultiple u => (AuthService.updateMultiple db u).1

/-- The tables a sequence of calls goes through, the initial one first. -/
def trace (db : Table) : List Call → List Table
  | [] => [db]
  | c :: cs => db :: trace (c.run db) cs

/-- The condition `updateOne` puts on the stored attribute: it equals `lastEventId`, or
`lastEventId` is `0` and the attribute is missing. -/
def conditionHolds (db : Table) (s : String) (l : Nat) : Prop :=
  lastProcessedEventId db s = some (.N l) ∨ (l = 0 ∧ lastProcessedEventId db s = none)

instance (db : Table) (s : String) (l : Nat) : Decidable (conditionHolds db s l) := by
  unfold conditionHolds; infer_instance

/-- The table with no item. -/
def emptyTable : Table := fun _ => none

/-- An entry asks for a revision that is not below the one it expects: `new` is omitted or
`0` (so `last + 1` is stored), or `last ≤ new`. -/
def UpdateEntry.advancing (e : UpdateEntry) : Bool :=
  decide (e.last ≤ defaultNewEventId e.last e.new)

/-- Every update a call makes is advancing. -/
def Call.advancing : Call → Bool
  | .updateOne _ l n => decide (l ≤ defaultNewEventId l n)
  | .updateMultiple (.array entries) => entries.all UpdateEntry.advancing
  | .updateMultiple (.object entries) => entries.all UpdateEntry.advancing
  | .updateMultiple .other => true

/-! ## JavaScript values handed to the aggregate -/

/-- Modelled from the spec: the `Role` class (`role.class.js` is not among the sources). The
aggregate reads only `roleId`, the role-id under which the role definition is kept; the rest
of the definition is carried along unread. -/
structure Role where
  roleId : String
  permissions : List String
  deriving DecidableEq, Repr

/-- JavaScript values that can be elements of a `roles` array: primitives (numbers are
integers) and non-array objects, told apart by their reference. -/
inductive JsAtom where
  | undefined
  | null
  | boolean (b : Bool)
  | number (n : Int)
  | string (s : String)
  | object (ref : Nat)
  deriving DecidableEq, Repr

/-- JavaScript values passed as arguments: an atom, an instance of `Role`, or an array. -/
inductive JsValue where
  | atom (a : JsAtom)
  | role (r : Role)
  | array (xs : List JsAtom)
  deriving DecidableEq, Repr

/-- Conversion to a property key, which is also `String(r)` inside a template literal. -/
def JsAtom.toPropertyKey : JsAtom → String
  | .undefined => "undefined"
  | .null => "null"
  | .boolean b => if b then "true" else "false"
  | .number n => toString n
  | .string s => s
  | .object _ => "[object Object]"

/-- JavaScript truthiness. -/
def JsAtom.truthy : JsAtom → Bool
  | .undefined => false
  | .null => false
  | .boolean b => b
  | .number n => n != 0
  | .string s => s != ""
  | .object _ => true

/-- JavaScript truthiness. -/
def JsValue.truthy : JsValue → Bool
  | .atom a => a.truthy
  | .role _ => true
  | .array _ => true

/-- The string tested by `typeof v !== 'string'`, when `v` is one. -/
def JsValue.asString : JsValue → Option String
  | .atom (.string s) => some s
  | _ => none

/-- The names every plain object inherits from `Object.prototype`; each of them is bound to
a function or, for `__proto__`, to the prototype object, so reading it gives a truthy value
that has no `add` and no `delete` method of a `Set`. -/
def objectPrototypeKeys : List String :=
  ["constructor", "__defineGetter__", "__defineSetter__", "hasOwnProperty",
   "__lookupGetter__", "__lookupSetter__", "isPrototypeOf", "propertyIsEnumerable",
   "toString", "valueOf", "__proto__", "toLocaleString"]

/-- A plain object `{}` used as a map: its own properties, in creation order. -/
abbrev JsObject (α : Type) := List (String × α)

/-- Whether `obj[key]` is truthy, for an object whose own values are all objects: the key is
an own property or is inherited from `Object.prototype`. -/
def JsObject.truthyAt {α : Type} (obj : JsObject α) (key : String) : Bool :=
  (obj.lookup key).isSome || objectPrototypeKeys.contains key

/-- The statement `delete obj[key]`. -/
def JsObject.deleteKey {α : Type} (obj : JsObject α) (key : String) : JsObject α :=
  obj.filter (fun p => p.1 != key)

/-- The statement `obj[key] = v` for a key that `Object.prototype` does not define. -/
def JsObject.assign {α : Type} (obj : JsObject α) (key : String) (v : α) : JsObject α :=
  if (obj.lookup key).isSome then obj.map (fun p => if p.1 == key then (key, v) else p)
  else obj ++ [(key, v)]

/-- The integer a key stands for when it is an array index, which `Object.keys` and
`Object.values` list first, in ascending order. -/
def arrayIndex (key : String) : Option Nat :=
  match key.toNat? with
  | some n => if toString n == key && n < 4294967295 then some n else none
  | none => none

/-- Own properties in the order `Object.keys` / `Object.values` visit them. -/
def JsObject.ordered {α : Type} (obj : JsObject α) : JsObject α :=
  ((obj.filter (fun p => (arrayIndex p.1).isSome)).insertionSort
      (fun p q => (arrayIndex p.1).getD 0 ≤ (arrayIndex q.1).getD 0))
    ++ obj.filter (fun p => (arrayIndex p.1).isNone)

/-- A `Set` of role ids: its elements in insertion order, each once. -/
abbrev JsSet := List JsAtom

/-- The method `Set.prototype.add`. -/
def JsSet.add (s : JsSet) (r : JsAtom) : JsSet :=
  if r ∈ s then s else s ++ [r]

/-- The method `Set.prototype.delete`. -/
def JsSet.delete (s : JsSet) (r : JsAtom) : JsSet :=
  s.filter (fun x => x != r)

/-! ## `Organization` -/

/-- The factory functions of `OrganizationError` the aggregate throws with. -/
inductive OrganizationErrorCode where
  | organizationDeletedError
  | paramError
  | roleAlreadyExistsError
  | roleDoesNotExistError
  | userAlreadyExistsError
  | userDoesNotExistError
  deriving DecidableEq, Repr

/-- What a method of the aggregate throws: an `OrganizationError` with its message, or the
`TypeError` of the runtime for a call of something that is not a function. -/
inductive Thrown where
  | organizationError (code : OrganizationErrorCode) (message : String)
  | typeError (message : String)
  deriving DecidableEq, Repr

/-- The fields of an `Organization`. `status` is `none` while the field is not set. -/
structure Organization where
  orgId : String
  name : JsValue
  status : Option String
  _roles : JsObject Role
  _users : JsObject JsSet
  deriving DecidableEq, Repr

/-- An aggregate after a method call, and what the call threw, if it threw. -/
structure Outcome where
  org : Organization
  thrown : Option Thrown
  deriving DecidableEq, Repr

namespace Organization

/-- `new Organization(name)`, with `uuid` the value `uuid()` returns. -/
def create (uuid : String) (name : JsValue) : Organization :=
  { orgId := uuid, name := name, status := none, _roles := [], _users := [] }

/-- `isDeleted()`. -/
def isDeleted (self : Organization) : Bool :=
  self.status == some "deleted"

/-- `delete()`. -/
def delete (self : Organization) : Outcome :=
  { org := { self with status := some "deleted" }, thrown := none }

/-- `_checkIfDeleted()`: the error it throws, if it throws. -/
def _checkIfDeleted (self : Organization) : Option Thrown :=
  if self.isDeleted then
    some (.organizationError .organizationDeletedError
      "Organization is deleted and no more action can be taken on it")
  else none

/-- `addRole(role)`. -/
def addRole (self : Organization) (role : JsValue) : Outcome :=
  match self._checkIfDeleted with
  | some e => ⟨self, some e⟩
  | none =>
    match role with
    | .role r =>
      if self._roles.truthyAt r.roleId then
        ⟨self, some (.organizationError .roleAlreadyExistsError
          ("role with id " ++ r.roleId ++ " already exists"))⟩
      else
        ⟨{ self with _roles := self._roles.assign r.roleId r }, none⟩
    | _ => ⟨self, some (.organizationError .paramError "role must be an instance of Role")⟩

/-- `removeRole(roleId)`. -/
def removeRole (self : Organization) (roleId : JsValue) : Outcome :=
  match self._checkIfDeleted with
  | some e => ⟨self, some e⟩
  | none =>
    match roleId.asString with
    | none => ⟨self, some (.organizationError .paramError "roleId must be a string")⟩
    | some id => ⟨{ self with _roles := self._roles.deleteKey id }, none⟩

/-- `addUser(userId, roles)`. The class has no method `assignRoles`, so the call made for a
truthy `roles` is a call of `undefined`. -/
def addUser (self : Organization) (userId : JsValue) (roles : JsValue) : Outcome :=
  match self._checkIfDeleted with
  | some e => ⟨self, some e⟩
  | none =>
    match userId.asString with
    | none => ⟨self, some (.organizationError .paramError "userId must be a string")⟩
    | some id =>
      if self._users.truthyAt id then
        ⟨self, some (.organizationError .userAlreadyExistsError
          ("user with id " ++ id ++ " already exists in the organization"))⟩
      else
        let self := { self with _users := self._users.assign id [] }
        if roles.truthy then ⟨self, some (.typeError "this.assignRoles is not a function")⟩
        else ⟨self, none⟩

/-- The loop `roles.forEach(r => { ... })` of `assignRolesToUser` (with `Set.add` for `op`
and `"add"` for `method`) and of `removeRolesFromUser` (with `Set.delete` and `"delete"`):
it stops at the first element that throws, keeping what the earlier ones did. -/
def forEachRole (op : JsSet → JsAtom → JsSet) (method : String) (userId : String) :
    Organization → List JsAtom → Outcome
  | self, [] => ⟨self, none⟩
  | self, r :: rest =>
    if !self._roles.truthyAt r.toPropertyKey then
      ⟨self, some (.organizationError .roleDoesNotExistError
        ("role " ++ r.toPropertyKey ++ " does not exist in the organization"))⟩
    else
      match self._users.lookup userId with
      | none =>
        ⟨self, some (.typeError ("this._users[userId]." ++ method ++ " is not a function"))⟩
      | some set =>
        forEachRole op method userId
          { self with _users := self._users.assign userId (op set r) } rest

/-- The checks `assignRolesToUser` and `removeRolesFromUser` share, then the loop. -/
def changeRolesOfUser (op : JsSet → JsAtom → JsSet) (method : String) (self : Organization)
    (userId : JsValue) (roles : JsValue) : Outcome :=
  match self._checkIfDeleted with
  | some e => ⟨self, some e⟩
  | none =>
    match userId.asString with
    | none => ⟨self, some (.organizationError .paramError "userId must be a string")⟩
    | some id =>
      if !self._users.truthyAt id then
        ⟨self, some (.organizationError .userDoesNotExistError
          ("user with id " ++ id ++ " does not exist in the organization"))⟩
      else
        match roles with
        | .array (.string r :: rest) => forEachRole op method id self (.string r :: rest)
        | _ =>
          ⟨self, some (.organizationError .paramError
            "roles must be a non empty array of role names")⟩

/-- `assignRolesToUser(userId, roles)`. -/
def assignRolesToUser (self : Organization) (userId : JsValue) (roles : JsValue) : Outcome :=
  changeRolesOfUser JsSet.add "add" self userId roles

/-- `removeRolesFromUser(userId, roles)`. -/
def removeRolesFromUser (self : Organization) (userId : JsValue) (roles : JsValue) : Outcome :=
  changeRolesOfUser JsSet.delete "delete" self userId roles

/-- `removeUser(userId)`. -/
def removeUser (self : Organization) (userId : JsValue) : Outcome :=
  match self._checkIfDeleted with
  | some e => ⟨self, some e⟩
  | none =>
    match userId.asString with
    | none => ⟨self, some (.organizationError .paramError "userId must be a string")⟩
    | some id =>
      if !self._users.truthyAt id then
        ⟨self, some (.organizationError .userDoesNotExistError
          ("user with id " ++ id ++ " does not exist in the organization"))⟩
      else
        ⟨{ self with _users := self._users.deleteKey id }, none⟩

/-- The getter `roles`: `Object.values(this._roles)`. -/
def roles (self : Organization) : List Role :=
  self._roles.ordered.map (fun p => p.2)

/-- The getter `users`: for each user id the array of the values of its role set. -/
def users (self : Organization) : JsObject (List JsAtom) :=
  self._users.ordered

end Organization


/-! ## `DynamoOrderControlDb`: batched read and reset -/

/-- `dynamodb.batchGetItem(params).promise()` for a request the service accepts, then
`response.Responses[this.tableName]`: the items stored under the requested keys. -/
def batchGetItem (t : Table) (keys : List AttributeValue) : List Item :=
  keys.filterMap t

/-- The object `{ streamId: item.StreamId, eventId: item.LastProcessedEventId }` built from
an unwrapped item; a field is `none` when the item lacks the attribute (`undefined`). -/
structure ItemEntry where
  streamId : Option AttributeValue
  eventId : Option AttributeValue
  deriving DecidableEq, Repr

/-- What `getMultiple` can return for one stream id: an object with the two fields; the value
`Object.prototype` binds to an inherited name (a function, or the prototype itself); or a
field value read through a replaced prototype. -/
inductive ItemSetValue where
  | entry (e : ItemEntry)
  | inherited (name : String)
  | primitive (v : AttributeValue)
  deriving DecidableEq, Repr

/-- JavaScript truthiness of such a value. -/
def ItemSetValue.truthy : ItemSetValue → Bool
  | .entry _ => true
  | .inherited _ => true
  | .primitive v => v.truthy

/-- The object `itemSet`, which starts as `{}`: its own properties, and the entry that
replaced its prototype, if the key `__proto__` was assigned. -/
structure ItemSet where
  own : JsObject ItemEntry
  proto : Option ItemEntry
  deriving DecidableEq, Repr

/-- Conversion of an unwrapped attribute, or of `undefined`, to a property key. -/
def attributeKey : Option AttributeValue → String
  | none => "undefined"
  | some (.N n) => toString n
  | some (.S s) => s

/-- The statement `itemSet[e.streamId] = e`: the key `__proto__` sets the prototype, any
other key an own property. -/
def ItemSet.set (s : ItemSet) (e : ItemEntry) : ItemSet :=
  if attributeKey e.streamId == "__proto__" then { s with proto := some e }
  else { s with own := s.own.assign (attributeKey e.streamId) e }

/-- The expression `itemSet[sId]`, `none` for `undefined`: an own property, else what the
prototype chain gives: the fields of an entry that replaced the prototype, then the names
of `Object.prototype`. -/
def ItemSet.get (s : ItemSet) (sId : String) : Option ItemSetValue :=
  match s.own.lookup sId with
  | some e => some (.entry e)
  | none =>
    if sId == "__proto__" then
      match s.proto with
      | some e => some (.entry e)
      | none => some (.inherited sId)
    else
      match s.proto with
      | some e =>
        if sId == "streamId" then e.streamId.map .primitive
        else if sId == "eventId" then e.eventId.map .primitive
        else if objectPrototypeKeys.contains sId then some (.inherited sId) else none
      | none => if objectPrototypeKeys.contains sId then some (.inherited sId) else none

/-- `getMultiple(streamIds)`. -/
def getMultiple (db : Table) (streamIds : List String) : List ItemSetValue :=
  let keys := streamIds.map wrap1String
  let itemSet : ItemSet :=
    ((batchGetItem db keys).map
        (fun item => ({ streamId := item.attr "StreamId",
                        eventId := item.attr "LastProcessedEventId" } : ItemEntry))).foldl
      ItemSet.set { own := [], proto := none }
  streamIds.map (fun sId =>
    match itemSet.get sId with
    | some v => if v.truthy then v else .entry { streamId := some (.S sId), eventId := some (.N 0) }
    | none => .entry { streamId := some (.S sId), eventId := some (.N 0) })

/-- `reset()`: the body is the comment `//TODO`, the table is left as it is. -/
def reset (db : Table) : Table := db

/-! ## Role sets, in the words of the specification -/

/-- The elements of a list, each once, in the order of their first occurrence. -/
def firstOccurrences : List JsAtom → List JsAtom
  | [] => []
  | x :: xs => x :: (firstOccurrences xs).filter (fun y => y != x)

/-- The role list of a user after the roles `rs` were assigned: the roles held before,
followed by the ids of `rs` not held before, each once and in order of first occurrence. -/
def rolesAfterAssign (held : List JsAtom) (rs : List JsAtom) : List JsAtom :=
  held ++ (firstOccurrences rs).filter (fun r => r ∉ held)

/-! ## `Organization`: serialisation and sequences of calls -/

/-- The value of a field of the object `toJSON()` returns. -/
inductive JsonField where
  | string (s : String)
  | value (v : JsValue)
  | roles (rs : List Role)
  | users (us : JsObject (List JsAtom))
  deriving DecidableEq, Repr

/-- `toJSON()`: the object literal with the four fields `orgId`, `name`, `roles`, `users`. -/
def Organization.toJSON (self : Organization) : JsObject JsonField :=
  [("orgId", .string self.orgId), ("name", .value self.name),
   ("roles", .roles self.roles), ("users", .users self.users)]

/-- A call of one of the mutating methods of `Organization`, with its arguments. -/
inductive Mutation where
  | addRole (role : JsValue)
  | removeRole (roleId : JsValue)
  | addUser (userId roles : JsValue)
  | assignRolesToUser (userId roles : JsValue)
  | removeRolesFromUser (userId roles : JsValue)
  | removeUser (userId : JsValue)
  | delete
  deriving DecidableEq, Repr

/-- The call on an organization. -/
def Mutation.run (m : Mutation) (org : Organization) : Outcome :=
  match m with
  | .addRole role => org.addRole role
  | .removeRole roleId => org.removeRole roleId
  | .addUser userId roles => org.addUser userId roles
  | .assignRolesToUser userId roles => org.assignRolesToUser userId roles
  | .removeRolesFromUser userId roles => org.removeRolesFromUser userId roles
  | .removeUser userId => org.removeUser userId
  | .delete => org.delete

/-- The organization after a sequence of calls; a call that throws leaves the organization
as it is at the throw, and the next call goes on from there. -/
def runAll (org : Organization) : List Mutation → Organization
  | [] => org
  | m :: ms => runAll (m.run org).org ms

/-- Some user of the organization holds a role id that stands for the key `id`. -/
def Organization.roleInUse (org : Organization) (id : String) : Bool :=
  org._users.any (fun p => p.2.any (fun r => r.toPropertyKey == id))

/-- The call is a `removeRole` that takes away a role some user holds. -/
def Mutation.removesRoleInUse (org : Organization) : Mutation → Bool
  | .removeRole (.atom (.string id)) => !org.isDeleted && org.roleInUse id
  | _ => false

/-- No call of the sequence, at the moment it is made, takes away a role some user holds. -/
def sparing (org : Organization) : List Mutation → Bool
  | [] => true
  | m :: ms => !m.removesRoleInUse org && sparing (m.run org).org ms

/-- Every role id a user holds reads as truthy in the roles: it is the id of a role, or a
name inherited from `Object.prototype`. -/
def HeldRolesKnown (org : Organization) : Prop :=
  ∀ p ∈ org._users, ∀ r ∈ p.2, org._roles.truthyAt r.toPropertyKey = true

/-- The role list of a user after the roles `rs` were removed: the roles held before that
are not in `rs`. -/
def rolesAfterRemove (held : List JsAtom) (rs : List JsAtom) : List JsAtom :=
  held.filter (fun r => r ∉ rs)

/-! ## Aggregate repository and event log -/

/-- Modelled from the spec: the payload of an event of a stream, section 3 "Event". The
repository and its event store (`infrastructure/repository/repositoryManager`) are not among
the sources. The event types are the closed enumeration of the specification; the payload
of each type is the data the unit test of the repository expects of it: strings, arrays of
strings and a role. The field `orgId` of the other payloads is the stream of the event. -/
inductive DomainEvent where
  | organizationCreated (orgId : String) (name : String)
  | roleAdded (role : Role)
  | roleRemoved (roleId : String)
  | userAdded (userId : String)
  | rolesAssignedToUser (userId : String) (roles : List String)
  | rolesRemovedFromUser (userId : String) (roles : List String)
  | userRemoved (userId : String)
  | organizationDeleted
  deriving DecidableEq, Repr

/-- Modelled from the spec: an event as the log keeps it, with the stream it belongs to and
its revision in that stream. -/
structure Event where
  streamId : String
  payload : DomainEvent
  revision : Nat
  deriving DecidableEq, Repr

/-- Modelled from the spec: the state transition replay makes for an event, "the same
mutation operations used for live commands": the method of `Organization` that belongs to
the type of the event, called with the data of the payload. The event of the creation gives
the empty aggregate its id and its name. -/
def DomainEvent.apply (e : DomainEvent) (org : Organization) : Outcome :=
  match e with
  | .organizationCreated orgId name =>
    ⟨{ org with orgId := orgId, name := .atom (.string name) }, none⟩
  | .roleAdded role => org.addRole (.role role)
  | .roleRemoved roleId => org.removeRole (.atom (.string roleId))
  | .userAdded userId => org.addUser (.atom (.string userId)) (.atom .undefined)
  | .rolesAssignedToUser userId roles =>
    org.assignRolesToUser (.atom (.string userId)) (.array (roles.map JsAtom.string))
  | .rolesRemovedFromUser userId roles =>
    org.removeRolesFromUser (.atom (.string userId)) (.array (roles.map JsAtom.string))
  | .userRemoved userId => org.removeUser (.atom (.string userId))
  | .organizationDeleted => org.delete

/-- Modelled from the spec: the role names of a payload, taken from the array passed to a
live command; `none` when an element of the array is not a string. -/
def roleNames : List JsAtom → Option (List String)
  | [] => some []
  | .string s :: rest => (roleNames rest).map (fun names => s :: names)
  | _ :: _ => none

/-- Modelled from the spec: the payload the repository records for a live command on an
organization; `none` for a call whose arguments are not the data of a payload. The roles
passed to `addUser` are not part of the payload of a user's addition. -/
def Mutation.payload : Mutation → Option DomainEvent
  | .addRole (.role r) => some (.roleAdded r)
  | .addRole _ => none
  | .removeRole (.atom (.string id)) => some (.roleRemoved id)
  | .removeRole _ => none
  | .addUser (.atom (.string id)) _ => some (.userAdded id)
  | .addUser _ _ => none
  | .assignRolesToUser (.atom (.string id)) (.array rs) =>
    (roleNames rs).map (fun names => .rolesAssignedToUser id names)
  | .assignRolesToUser _ _ => none
  | .removeRolesFromUser (.atom (.string id)) (.array rs) =>
    (roleNames rs).map (fun names => .rolesRemovedFromUser id names)
  | .removeRolesFromUser _ _ => none
  | .removeUser (.atom (.string id)) => some (.userRemoved id)
  | .removeUser _ => none
  | .delete => some .organizationDeleted

/-- Modelled from the spec: a sequence of valid commands on an organization: each call,
made on the organization the calls before it left, throws nothing and has a payload. -/
def validCommands (org : Organization) : List Mutation → Bool
  | [] => true
  | m :: ms =>
    (m.run org).thrown.isNone && m.payload.isSome && validCommands (m.run org).org ms

/-- Modelled from the spec: the event log, the stream of each aggregate id in the order its
events were appended. -/
abbrev EventLog := String → List Event

/-- Modelled from the spec: the current tail revision of a stream, `0` when the stream has
no event. -/
def tailRevision (log : EventLog) (id : String) : Nat :=
  match (log id).getLast? with
  | some e => e.revision
  | none => 0

/-- Modelled from the spec: the error taxonomy of the repository (section 4.1), and the
error of the aggregate when a mutation throws during replay. -/
inductive RepositoryError where
  | ConcurrencyConflict
  | NotFound
  | mutationFailed (thrown : Thrown)
  deriving DecidableEq, Repr

/-- Modelled from the spec: `append(aggregate, event_payload, expected_revision)`, section
4.1: the event gets revision `expected_revision + 1` and is appended on condition that the
stream's tail revision equals `expected_revision`. -/
def append (log : EventLog) (id : String) (payload : DomainEvent) (expectedRevision : Nat) :
    Except RepositoryError EventLog :=
  if tailRevision log id = expectedRevision then
    .ok (fun s => if s = id then log s ++ [⟨id, payload, expectedRevision + 1⟩] else log s)
  else .error .ConcurrencyConflict

/-- Modelled from the spec: payloads persisted one after the other, the first with the
expected revision `expected`, each next one with the revision the one before it created. -/
def appendAll (log : EventLog) (id : String) (expected : Nat) :
    List DomainEvent → Except RepositoryError EventLog
  | [] => .ok log
  | c :: cs =>
    match append log id c expected with
    | .ok log1 => appendAll log1 id (expected + 1) cs
    | .error e => .error e

/-- Modelled from the spec: replay of events on an aggregate; a mutation that throws ends
the replay with that error. -/
def replay (org : Organization) : List Event → Except RepositoryError Organization
  | [] => .ok org
  | e :: es =>
    match (e.payload.apply org).thrown with
    | none => replay (e.payload.apply org).org es
    | some t => .error (.mutationFailed t)

/-- Modelled from the spec: `getAggregate(id)`, section 4.1: `NotFound` for a stream with no
event; otherwise the events in ascending revision order are applied to a freshly
constructed empty aggregate (`new Organization()`, with `uuid` the value `uuid()` returns
for it), and the aggregate is returned with the highest revision of the stream. -/
def getAggregate (uuid : String) (log : EventLog) (id : String) :
    Except RepositoryError (Organization × Nat) :=
  let events := (log id).insertionSort (fun a b => a.revision ≤ b.revision)
  match events.getLast? with
  | none => .error .NotFound
  | some last =>
    match replay (Organization.create uuid (.atom .undefined)) events with
    | .ok org => .ok (org, last.revision)
    | .error e => .error e

/-- The log with no event. -/
def emptyLog : EventLog := fun _ => []

/-! ## `permissionChecker.js` -/

/-- A permission inside the roles of a token: its name, and `parameters[p]` for every
name `p` (`undefined` where the parameters have no such property). -/
structure TokenPermission where
  name : String
  parameters : String → JsAtom

/-- A role inside a token: the middleware reads only its permissions. -/
structure TokenRole where
  permissions : List TokenPermission

/-- A value of the object `jwtPayload.roles`: an array of roles, or one role. -/
inductive TokenRoles where
  | list (roles : List TokenRole)
  | single (role : TokenRole)

/-- The payload `jwts.verify` resolves with: the expiry in milliseconds since the epoch
(`none` when the payload has no `exp`), and the roles (`none` when it has no `roles`). -/
structure JwtPayload where
  exp : Option Nat
  roles : Option (JsObject TokenRoles)

/-- The `Map` from permission names to permissions kept in `req.jwtPermissions`. -/
abbrev PermissionMap := List (String × TokenPermission)

/-- The method `Map.prototype.set`: the value of an existing key is replaced, a new key is
added at the end. -/
def PermissionMap.set (m : PermissionMap) (name : String) (p : TokenPermission) :
    PermissionMap :=
  if (m.lookup name).isSome then m.map (fun q => if q.1 == name then (name, p) else q)
  else m ++ [(name, p)]

/-- What the two middlewares read and write of the request: the `Authorization` header,
`req.params[p]` and `req[p]` for every name `p`, and the properties `token`, `jwtPayload`
and `jwtPermissions` (`none` while not set). -/
structure Request where
  authorization : Option String
  params : String → JsAtom
  fields : String → JsAtom
  token : Option String
  jwtPayload : Option JwtPayload
  jwtPermissions : Option PermissionMap

/-- The factory functions of `ApiError` the middlewares call `next` with. -/
inductive ApiError where
  | noTokenError
  | invalidTokenError
  | tokenExpiredError
  | notAuthorizedError
  deriving DecidableEq, Repr

/-- How a middleware ends: `next()`, `next(err)`, or an exception of the runtime. -/
inductive MiddlewareResult where
  | next
  | nextError (err : ApiError)
  | thrown (message : String)
  deriving DecidableEq, Repr

/-- A character that `.` of a regular expression does not match. -/
def isLineTerminator (c : Char) : Bool :=
  c == '\n' || c == '\r' || c == '\u2028' || c == '\u2029'

/-- The token that `/^Bearer (.+)$/` extracts from the header value: what follows
`Bearer `, when it is not empty and holds no line terminator. -/
def bearerToken (value : Option String) : Option String :=
  match value with
  | none => none
  | some v =>
    match v.data with
    | 'B' :: 'e' :: 'a' :: 'r' :: 'e' :: 'r' :: ' ' :: t =>
      if !t.isEmpty && t.all (fun c => !isLineTerminator c) then some (String.mk t) else none
    | _ => none

/-- The test `!jwtPayload.exp || (new Date(jwtPayload.exp)).getTime() < Date.now()` at the
time `now`: a missing or zero `exp`, or an earlier one. Beyond 8.64e15 milliseconds the date
is invalid, its time is `NaN` and the comparison is false. -/
def JwtPayload.expired (payload : JwtPayload) (now : Nat) : Bool :=
  match payload.exp with
  | none => true
  | some exp => exp == 0 || (decide (exp ≤ 8640000000000000) && decide (exp < now))

/-- `verifyToken(req, res, next)`, with `verify` the outcome of `jwts.verify` on a token
(`none` when it rejects) and `now` the value of `Date.now()`: the request afterwards and
the call of `next`. -/
def verifyToken (verify : String → Option JwtPayload) (now : Nat) (req : Request) :
    Request × MiddlewareResult :=
  match req.jwtPayload with
  | some _ => (req, .next)
  | none =>
    match bearerToken req.authorization with
    | none => (req, .nextError .noTokenError)
    | some token =>
      match verify token with
      | none => (req, .nextError .invalidTokenError)
      | some jwtPayload =>
        let req := { req with token := some token, jwtPayload := some jwtPayload }
        if jwtPayload.expired now then (req, .nextError .tokenExpiredError)
        else (req, .next)

/-- Modelled from the spec: `PermissionDefinition` (`permissionDef.class.js` is not among
the sources); the middleware reads only the name of a definition. -/
structure PermissionDefinition where
  name : String
  deriving DecidableEq, Repr

/-- The permissions of all roles of a token, in the order
`Object.keys(roles).map(...).flat(3)` lists them. -/
def allPermissions (roles : JsObject TokenRoles) : List TokenPermission :=
  roles.ordered.flatMap (fun kv =>
    match kv.2 with
    | .list rs => rs.flatMap (fun r => r.permissions)
    | .single r => r.permissions)

/-- The value `req.params[p] || req[p]`. -/
def Request.paramValue (req : Request) (p : String) : JsAtom :=
  if (req.params p).truthy then req.params p else req.fields p

/-- The second middleware that `checkPermission({ permissionDefs, params })` returns, after
`verifyToken`: the request afterwards and the call of `next`. -/
def checkPermission (permissionDefs : List PermissionDefinition) (params : List String)
    (req : Request) : Request × MiddlewareResult :=
  let prepared : Option (Request × PermissionMap) :=
    match req.jwtPermissions with
    | some m => some (req, m)
    | none =>
      match req.jwtPayload with
      | none => none
      | some payload =>
        let roles := payload.roles.getD []
        let m := (allPermissions roles).foldl (fun m p => PermissionMap.set m p.name p) []
        some ({ req with jwtPayload := some { payload with roles := some roles },
                         jwtPermissions := some m }, m)
  match prepared with
  | none => (req, .thrown "Cannot read property 'roles' of undefined")
  | some (req, jwtPermissions) =>
    let hasPermission := permissionDefs.any (fun permDef =>
      match jwtPermissions.lookup permDef.name with
      | none => false
      | some perm => params.all (fun p => perm.parameters p == req.paramValue p))
    if !hasPermission then (req, .nextError .notAuthorizedError) else (req, .next)

/-- The calls of `next` by successive invocations of `verifyToken` on one request, the
`i`-th at the time `times[i]`. -/
def verifyTokenRepeatedly (verify : String → Option JwtPayload) (req : Request) :
    List Nat → List MiddlewareResult
  | [] => []
  | now :: later =>
    (verifyToken verify now req).2
      :: verifyTokenRepeatedly verify (verifyToken verify now req).1 later

/-! ## Order-control store: lemmas -/

theorem lookup_map_replace {α : Type} (l : List (String × α)) (k : String) (v : α)
    (h : (l.lookup k).isSome = true) :
    (l.map (fun p => if p.1 == k then (k, v) else p)).lookup k = some v := by
  induction l with
  | nil => cases h
  | cons p rest ih =>
    obtain ⟨a, w⟩ := p
    by_cases hk : k = a
    · subst hk
      simp only [List.map_cons, beq_self_eq_true, if_true, List.lookup_cons]
    · have h1 : (k == a) = false := beq_eq_false_iff_ne.mpr hk
      have h2 : (a == k) = false := beq_eq_false_iff_ne.mpr (fun e => hk e.symm)
      simp only [List.lookup_cons, h1] at h
      simp only [List.map_cons, h2, Bool.false_eq_true, if_false, List.lookup_cons, h1]
      exact ih h

theorem lookup_append_new {α : Type} (l : List (String × α)) (k : String) (v : α)
    (h : (l.lookup k).isSome = false) :
    (l ++ [(k, v)]).lookup k = some v := by
  induction l with
  | nil => simp only [List.nil_append, List.lookup_cons, beq_self_eq_true]
  | cons p rest ih =>
    obtain ⟨a, w⟩ := p
    by_cases hk : k = a
    · subst hk
      simp only [List.lookup_cons, beq_self_eq_true, Option.isSome_some] at h
      cases h
    · have h1 : (k == a) = false := beq_eq_false_iff_ne.mpr hk
      simp only [List.lookup_cons, h1] at h
      simp only [List.cons_append, List.lookup_cons, h1]
      exact ih h

theorem Item.attr_setAttr_self (item : Item) (name : String) (v : AttributeValue) :
    (item.setAttr name v).attr name = some v := by
  unfold Item.setAttr Item.attr
  split
  · rename_i h; exact lookup_map_replace item name v h
  · rename_i h; exact lookup_append_new item name v (Bool.eq_false_iff.mpr h)

/-- What DynamoDB validates of the request of `updateOne`: the stream id as a key, and the
two revisions as numbers. -/
theorem updateOneParams_valid_iff (s : String) (l : Nat) (n : Option Nat) :
    (updateOneParams s l n).valid = true ↔
      (AttributeValue.S s).validKey = true ∧ (AttributeValue.N l).validValue = true ∧
        (AttributeValue.N (defaultNewEventId l n)).validValue = true := by
  by_cases h : l = 0
  · subst h
    have h0 : (AttributeValue.N 0).validValue = true := by decide
    simp [updateOneParams, UpdateItemInput.valid, Condition.names, Condition.values,
      List.lookup, wrap1String, wrap1Number, h0]
  · simp [updateOneParams, UpdateItemInput.valid, Condition.names, Condition.values,
      List.lookup, h, wrap1String, wrap1Number]

theorem updateOne_eq (db : Table) (s : String) (l : Nat) (n : Option Nat) :
    updateOne db s l n =
      if (updateOneParams s l n).valid = true then
        if conditionHolds db s l then
          (db.put (.S s) (Item.setAttr ((db (.S s)).getD [("StreamId", .S s)])
              "LastProcessedEventId" (.N (defaultNewEventId l n))),
            .ok (Item.setAttr ((db (.S s)).getD [("StreamId", .S s)])
              "LastProcessedEventId" (.N (defaultNewEventId l n))))
        else (db, .error .ConditionalCheckFailedException)
      else (db, .error .ValidationException) := by
  unfold updateOne updateItem
  by_cases hv : (updateOneParams s l n).valid = true
  · rw [if_pos hv]
    simp only [hv, Bool.not_true, Bool.false_eq_true, if_false]
    by_cases h : l = 0
    · subst h
      simp only [updateOneParams, conditionHolds, lastProcessedEventId, wrap1String,
        wrap1Number]
      simp [Condition.eval, List.lookup]
      cases hq : Item.attr ((db (.S s)).getD []) "LastProcessedEventId" <;> simp [hq]
    · simp only [updateOneParams, conditionHolds, lastProcessedEventId, wrap1String,
        wrap1Number]
      simp [Condition.eval, List.lookup, h]
  · rw [if_neg hv]
    simp only [hv, Bool.not_false, if_true]

theorem lastProcessedEventId_put_self (db : Table) (s : String) (item : Item) :
    lastProcessedEventId (db.put (.S s) item) s = item.attr "LastProcessedEventId" := by
  simp [lastProcessedEventId, Table.put, wrap1String]

theorem lastProcessedEventId_put_other (db : Table) (s t : String) (item : Item) (h : t ≠ s) :
    lastProcessedEventId (db.put (.S s) item) t = lastProcessedEventId db t := by
  simp [lastProcessedEventId, Table.put, wrap1String, h]

theorem storedRevision_eq (db : Table) (s : String) :
    storedRevision db s =
      match lastProcessedEventId db s with
      | some (.N n) => n
      | _ => 0 := by
  unfold storedRevision getOne getItem lastProcessedEventId
  cases h : Item.attr ((db (wrap1String s)).getD []) "LastProcessedEventId" with
  | none => simp [h]
  | some v =>
    cases v with
    | N n => by_cases hn : n = 0 <;> simp [h, AttributeValue.truthy, hn]
    | S t => by_cases ht : t = "" <;> simp [h, AttributeValue.truthy, ht]

theorem le_plusOne (l : Nat) : l ≤ plusOne l := by
  unfold plusOne
  split
  · omega
  · split
    · split <;> omega
    · omega

theorem plusOne_pos (l : Nat) : 0 < plusOne l := by
  unfold plusOne
  split
  · omega
  · split
    · split <;> omega
    · omega

theorem plusOne_of_lt (l : Nat) (h : l < 2 ^ 53) : plusOne l = l + 1 := by
  unfold plusOne
  rw [if_pos h]

theorem defaultNewEventId_pos (l : Nat) (n : Option Nat) : 0 < defaultNewEventId l n := by
  unfold defaultNewEventId
  cases n with
  | none => exact plusOne_pos l
  | some m =>
    by_cases hm : m = 0
    · simp only [hm, bne_self_eq_false, Bool.false_eq_true, if_false]
      exact plusOne_pos l
    · have : (m != 0) = true := by simpa using hm
      simp only [this, if_true]
      omega


theorem conditionHolds_iff (db : Table) (s : String) (l : Nat) :
    conditionHolds db s l ↔
      ((∃ item, db (.S s) = some item ∧ item.attr "LastProcessedEventId" = some (.N l)) ∨
        (l = 0 ∧ (db (.S s) = none ∨
          ∃ item, db (.S s) = some item ∧ item.attr "LastProcessedEventId" = none))) := by
  unfold conditionHolds lastProcessedEventId wrap1String
  cases h : db (.S s) with
  | none => simp [Item.attr]
  | some item => simp

theorem updateOne_step (db : Table) (s t : String) (l : Nat) (n : Option Nat)
    (h : l ≤ defaultNewEventId l n) :
    storedRevision db t ≤ storedRevision (updateOne db s l n).1 t := by
  rw [updateOne_eq]
  by_cases hv : (updateOneParams s l n).valid = true
  · rw [if_pos hv]
    by_cases hc : conditionHolds db s l
    · rw [if_pos hc]
      by_cases hts : t = s
      · subst hts
        rw [storedRevision_eq, storedRevision_eq, lastProcessedEventId_put_self,
          Item.attr_setAttr_self]
        rcases hc with hc | ⟨_, hc⟩
        · simpa [hc] using h
        · simp [hc]
      · rw [storedRevision_eq, storedRevision_eq, lastProcessedEventId_put_other _ _ _ _ hts]
    · rw [if_neg hc]
  · rw [if_neg hv]

theorem updateAll_step (t : String) (entries : List UpdateEntry) :
    ∀ db : Table, entries.all UpdateEntry.advancing = true →
      storedRevision db t ≤ storedRevision (updateAll db entries).1 t := by
  induction entries with
  | nil => intro db _; exact Nat.le_refl _
  | cons e es ih =>
    intro db h
    simp only [List.all_cons, Bool.and_eq_true] at h
    have h1 : e.last ≤ defaultNewEventId e.last e.new := by
      simpa [UpdateEntry.advancing] using h.1
    exact Nat.le_trans (updateOne_step db e.streamId t e.last e.new h1)
      (ih (updateOne db e.streamId e.last e.new).1 h.2)

theorem Call.run_step (db : Table) (t : String) (c : Call) (h : c.advancing = true) :
    storedRevision db t ≤ storedRevision (c.run db) t := by
  cases c with
  | updateOne s l n =>
    exact updateOne_step db s t l n (by simpa [Call.advancing] using h)
  | updateMultiple u =>
    cases u with
    | array entries => exact updateAll_step t entries db (by simpa [Call.advancing] using h)
    | object entries => exact updateAll_step t entries db (by simpa [Call.advancing] using h)
    | other => exact Nat.le_refl _

theorem trace_head (db : Table) (calls : List Call) : (trace db calls).head? = some db := by
  cases calls <;> rfl

/-- After a successful `updateOne` the record holds the defaulted new revision, and
`getOne` reads it. -/
theorem updateOne_stored_of_ok (db : Table) (s : String) (l : Nat) (n : Option Nat)
    (h : (updateOne db s l n).2.isOk = true) :
    lastProcessedEventId (updateOne db s l n).1 s = some (.N (defaultNewEventId l n)) ∧
    (getOne (updateOne db s l n).1 s).eventId = .N (defaultNewEventId l n) := by
  rw [updateOne_eq] at h ⊢
  by_cases hv : (updateOneParams s l n).valid = true
  · rw [if_pos hv] at h ⊢
    by_cases hc : conditionHolds db s l
    · simp only [if_pos hc]
      have h1 := lastProcessedEventId_put_self db s
        (Item.setAttr ((db (.S s)).getD [("StreamId", .S s)])
          "LastProcessedEventId" (.N (defaultNewEventId l n)))
      rw [Item.attr_setAttr_self] at h1
      refine ⟨h1, ?_⟩
      have h2 := h1
      unfold lastProcessedEventId at h2
      unfold getOne getItem
      simp only [h2, AttributeValue.truthy]
      have hd0 : defaultNewEventId l n ≠ 0 :=
        Nat.pos_iff_ne_zero.mp (defaultNewEventId_pos l n)
      simp [hd0]
    · rw [if_neg hc] at h
      simp [Except.isOk, Except.toBool] at h
  · rw [if_neg hv] at h
    simp [Except.isOk, Except.toBool] at h

/-- A request of `updateOne` that passes validation succeeds exactly when its condition
holds, and otherwise fails the conditional check. -/
theorem updateOne_of_valid (db : Table) (s : String) (l : Nat) (n : Option Nat)
    (hv : (updateOneParams s l n).valid = true) :
    ((updateOne db s l n).2.isOk = true ↔ conditionHolds db s l) ∧
    (¬ conditionHolds db s l →
      updateOne db s l n = (db, .error .ConditionalCheckFailedException)) := by
  rw [updateOne_eq, if_pos hv]
  by_cases hc : conditionHolds db s l
  · rw [if_pos hc]
    exact ⟨⟨fun _ => hc, fun _ => rfl⟩, fun h => absurd hc h⟩
  · rw [if_neg hc]
    exact ⟨⟨fun h => by simp [Except.isOk, Except.toBool] at h, fun h => absurd h hc⟩,
      fun _ => rfl⟩

/-- A request of `updateOne` that fails validation is rejected and changes nothing. -/
theorem updateOne_of_not_valid (db : Table) (s : String) (l : Nat) (n : Option Nat)
    (hv : ¬ (updateOneParams s l n).valid = true) :
    updateOne db s l n = (db, .error .ValidationException) := by
  rw [updateOne_eq, if_neg hv]

/-- C1 as stated fails: on the empty table `updateOne('', 0, 1)` does not succeed, although
`fromRevision` is `0` and the stream has no record: DynamoDB rejects the empty string as a
key with a validation error. -/
theorem updateOne_empty_stream_id_rejected :
    ¬ ∀ (db : Table) (streamId : String) (fromRevision : Nat) (toRevision : Option Nat),
        ((updateOne db streamId fromRevision toRevision).2.isOk = true ↔
          ((∃ item, db (.S streamId) = some item ∧
              item.attr "LastProcessedEventId" = some (.N fromRevision)) ∨
            (fromRevision = 0 ∧ (db (.S streamId) = none ∨
              ∃ item, db (.S streamId) = some item ∧
                item.attr "LastProcessedEventId" = none)))) := by
  intro h
  have h1 := (h emptyTable "" 0 (some 1)).mpr (Or.inr ⟨rfl, Or.inl rfl⟩)
  have h2 : updateOne emptyTable "" 0 (some 1) = (emptyTable, .error .ValidationException) :=
    updateOne_of_not_valid emptyTable "" 0 (some 1) (by decide)
  rw [h2] at h1
  cases h1

/-- C1, amended: `updateOne(streamId, fromRevision, toRevision)` succeeds exactly when
DynamoDB accepts the request (the stream id is a non-empty string of at most 2048 bytes,
and `fromRevision` and the new revision are numbers within its range) and the stored
`LastProcessedEventId` of `streamId` equals `fromRevision`, or `fromRevision` is `0` and the
stream has no record or a record without that attribute. A request that is not accepted
fails with the validation error, an accepted one whose condition does not hold with the
conditional-check failure, and both leave the table as it was; in particular the call fails
when `fromRevision` is not `0` and the stream has no record. -/
theorem updateOne_succeeds_iff (db : Table) (streamId : String) (fromRevision : Nat)
    (toRevision : Option Nat) :
    ((updateOne db streamId fromRevision toRevision).2.isOk = true ↔
      ((AttributeValue.S streamId).validKey = true ∧ fromRevision < dynamoNumberLimit ∧
        defaultNewEventId fromRevision toRevision < dynamoNumberLimit) ∧
      ((∃ item, db (.S streamId) = some item ∧
          item.attr "LastProcessedEventId" = some (.N fromRevision)) ∨
        (fromRevision = 0 ∧ (db (.S streamId) = none ∨
          ∃ item, db (.S streamId) = some item ∧
            item.attr "LastProcessedEventId" = none)))) ∧
    (¬ ((AttributeValue.S streamId).validKey = true ∧ fromRevision < dynamoNumberLimit ∧
        defaultNewEventId fromRevision toRevision < dynamoNumberLimit) →
      updateOne db streamId fromRevision toRevision = (db, .error .ValidationException)) ∧
    (((AttributeValue.S streamId).validKey = true ∧ fromRevision < dynamoNumberLimit ∧
        defaultNewEventId fromRevision toRevision < dynamoNumberLimit) →
      (updateOne db streamId fromRevision toRevision).2.isOk = false →
      updateOne db streamId fromRevision toRevision =
        (db, .error .ConditionalCheckFailedException)) ∧
    (fromRevision ≠ 0 → db (.S streamId) = none →
      (updateOne db streamId fromRevision toRevision).2.isOk = false) := by
  have hiff : (updateOneParams streamId fromRevision toRevision).valid = true ↔
      ((AttributeValue.S streamId).validKey = true ∧ fromRevision < dynamoNumberLimit ∧
        defaultNewEventId fromRevision toRevision < dynamoNumberLimit) := by
    rw [updateOneParams_valid_iff]
    simp [AttributeValue.validValue]
  rw [← conditionHolds_iff, ← hiff]
  by_cases hv : (updateOneParams streamId fromRevision toRevision).valid = true
  · obtain ⟨h1, h2⟩ := updateOne_of_valid db streamId fromRevision toRevision hv
    refine ⟨by rw [h1]; exact ⟨fun h => ⟨hv, h⟩, fun h => h.2⟩, fun h => absurd hv h, ?_, ?_⟩
    · intro _ hno
      apply h2
      intro hc
      rw [h1.mpr hc] at hno
      cases hno
    · intro h0 hn
      cases hok : (updateOne db streamId fromRevision toRevision).2.isOk with
      | false => rfl
      | true =>
        have hc := h1.mp hok
        rw [conditionHolds_iff] at hc
        simp [hn, h0] at hc
  · have h3 := updateOne_of_not_valid db streamId fromRevision toRevision hv
    refine ⟨?_, fun _ => h3, fun h => absurd h hv, fun _ _ => by rw [h3]; rfl⟩
    rw [h3]
    exact Iff.intro (fun h => by cases h) (fun h => absurd h.1 hv)

/-- C2 as stated fails: on the empty table `updateOne("s", 0, 0)` succeeds and the stored
revision is then `1`, not the `toRevision` `0` that was passed. -/
theorem updateOne_stores_toRevision_fails :
    ¬ ∀ (db : Table) (streamId : String) (fromRevision toRevision : Nat),
        (updateOne db streamId fromRevision (some toRevision)).2.isOk = true →
        lastProcessedEventId (updateOne db streamId fromRevision (some toRevision)).1 streamId
          = some (.N toRevision) := by
  intro h
  have h1 := h emptyTable "s" 0 0 rfl
  revert h1
  decide

/-- C2, amended: whenever `updateOne(streamId, fromRevision, toRevision)` succeeds, the
stored last-processed revision afterwards is `toRevision` when `toRevision` is at least `1`,
and the JavaScript sum `fromRevision + 1` when `toRevision` is `0` or omitted: that sum is
`fromRevision + 1` for every `fromRevision` below `2 ^ 53`, and is `2 ^ 53` again for
`fromRevision` equal to `2 ^ 53`. -/
theorem updateOne_stores_new_revision (db : Table) (streamId : String) (fromRevision : Nat)
    (toRevision : Option Nat)
    (h : (updateOne db streamId fromRevision toRevision).2.isOk = true) :
    (∀ n, toRevision = some n → 0 < n →
      lastProcessedEventId (updateOne db streamId fromRevision toRevision).1 streamId
          = some (.N n) ∧
        (getOne (updateOne db streamId fromRevision toRevision).1 streamId).eventId = .N n) ∧
    (toRevision = some 0 ∨ toRevision = none →
      lastProcessedEventId (updateOne db streamId fromRevision toRevision).1 streamId
          = some (.N (plusOne fromRevision)) ∧
        (getOne (updateOne db streamId fromRevision toRevision).1 streamId).eventId
          = .N (plusOne fromRevision)) ∧
    (fromRevision < 2 ^ 53 → plusOne fromRevision = fromRevision + 1) ∧
    plusOne (2 ^ 53) = 2 ^ 53 := by
  have key := updateOne_stored_of_ok db streamId fromRevision toRevision h
  refine ⟨?_, ?_, plusOne_of_lt fromRevision, by decide⟩
  · intro n hn hpos
    subst hn
    have hd : defaultNewEventId fromRevision (some n) = n := by
      have hn0 : n ≠ 0 := Nat.pos_iff_ne_zero.mp hpos
      simp [defaultNewEventId, hn0]
    rw [hd] at key
    exact key
  · intro hz
    have hd : defaultNewEventId fromRevision toRevision = plusOne fromRevision := by
      rcases hz with hz | hz <;> subst hz <;> simp [defaultNewEventId]
    rw [hd] at key
    exact key

theorem updateOne_stores_new_revision_witness :
    (updateOne emptyTable "org-1" 0 (some 1)).2.isOk = true ∧
    lastProcessedEventId (updateOne emptyTable "org-1" 0 (some 1)).1 "org-1"
      = some (.N 1) :=
  ⟨rfl, ((updateOne_stores_new_revision emptyTable "org-1" 0 (some 1) rfl).1 1 rfl
    (by decide)).1⟩

/-- C3 as stated fails: the stream with the empty string as id has no record, and
`updateOne('', 0, 1)` does not succeed: DynamoDB rejects the empty string as a key with a
validation error. -/
theorem first_advance_empty_stream_id_rejected :
    ¬ ∀ (db : Table) (streamId : String),
        (db (.S streamId) = none ∨ lastProcessedEventId db streamId = some (.N 0)) →
        (updateOne db streamId 0 (some 1)).2.isOk = true := by
  intro h
  have h1 := h emptyTable "" (Or.inl rfl)
  have h2 : updateOne emptyTable "" 0 (some 1) = (emptyTable, .error .ValidationException) :=
    updateOne_of_not_valid emptyTable "" 0 (some 1) (by decide)
  rw [h2] at h1
  cases h1

/-- C3, amended: on a stream whose id DynamoDB accepts as a key (a non-empty string of at
most 2048 bytes) and that has no record, or the stored revision `0`,
`updateOne(stream, 0, 1)` succeeds; the same call made again right after it fails with the
conditional-check error, changes nothing, and the stored revision stays `1`: of the two
identical advances exactly the first to reach the table succeeds. -/
theorem updateOne_first_advance_once (db : Table) (streamId : String)
    (hk : (AttributeValue.S streamId).validKey = true)
    (h : db (.S streamId) = none ∨ lastProcessedEventId db streamId = some (.N 0)) :
    (updateOne db streamId 0 (some 1)).2.isOk = true ∧
    (updateOne (updateOne db streamId 0 (some 1)).1 streamId 0 (some 1)).2
      = .error .ConditionalCheckFailedException ∧
    (updateOne (updateOne db streamId 0 (some 1)).1 streamId 0 (some 1)).1
      = (updateOne db streamId 0 (some 1)).1 ∧
    lastProcessedEventId (updateOne (updateOne db streamId 0 (some 1)).1 streamId 0 (some 1)).1
      streamId = some (.N 1) ∧
    storedRevision (updateOne (updateOne db streamId 0 (some 1)).1 streamId 0 (some 1)).1
      streamId = 1 := by
  have hv : (updateOneParams streamId 0 (some 1)).valid = true := by
    rw [updateOneParams_valid_iff]
    exact ⟨hk, by decide, by decide⟩
  have hc : conditionHolds db streamId 0 := by
    rcases h with h | h
    · right; exact ⟨rfl, by simp [lastProcessedEventId, wrap1String, h, Item.attr]⟩
    · left; exact h
  have h1 : (updateOne db streamId 0 (some 1)).2.isOk = true :=
    (updateOne_of_valid db streamId 0 (some 1) hv).1.mpr hc
  have h2 : lastProcessedEventId (updateOne db streamId 0 (some 1)).1 streamId
      = some (.N 1) := (updateOne_stored_of_ok db streamId 0 (some 1) h1).1
  have hn : ¬ conditionHolds (updateOne db streamId 0 (some 1)).1 streamId 0 := by
    unfold conditionHolds
    rw [h2]
    simp
  have h3 : updateOne (updateOne db streamId 0 (some 1)).1 streamId 0 (some 1)
      = ((updateOne db streamId 0 (some 1)).1, .error .ConditionalCheckFailedException) :=
    (updateOne_of_valid (updateOne db streamId 0 (some 1)).1 streamId 0 (some 1) hv).2 hn
  refine ⟨h1, ?_, ?_, ?_, ?_⟩
  · rw [h3]
  · rw [h3]
  · rw [h3]; exact h2
  · rw [h3, storedRevision_eq, h2]

theorem updateOne_first_advance_once_witness :
    (updateOne emptyTable "org-1" 0 (some 1)).2.isOk = true ∧
    (updateOne (updateOne emptyTable "org-1" 0 (some 1)).1 "org-1" 0 (some 1)).2
      = .error .ConditionalCheckFailedException :=
  ⟨(updateOne_first_advance_once emptyTable "org-1" (by decide) (Or.inl rfl)).1,
    (updateOne_first_advance_once emptyTable "org-1" (by decide) (Or.inl rfl)).2.1⟩

/-- C4 as stated fails: with revision `5` stored, the call `updateOne("s", 5, 3)` succeeds
and the stored revision goes down to `3`. -/
theorem stored_revision_can_decrease :
    ¬ ∀ (db : Table) (calls : List Call) (streamId : String),
        List.Chain' (fun a b => storedRevision a streamId ≤ storedRevision b streamId)
          (trace db calls) := by
  intro h
  have h1 := h emptyTable [.updateOne "s" 0 (some 5), .updateOne "s" 5 (some 3)] "s"
  simp only [trace, List.chain'_cons] at h1
  have h2 := h1.2.1
  revert h2
  decide

/-- C4, amended: along every sequence of `updateOne` and `updateMultiple` calls in which each
update asks for a new revision that is not below the one it expects (`toRevision` omitted or
`0`, so that `fromRevision + 1` is stored, or `fromRevision ≤ toRevision`), the stored
last-processed revision of every stream never decreases from one state to the next. -/
theorem stored_revision_monotone (calls : List Call) (streamId : String)
    (h : ∀ c ∈ calls, c.advancing = true) (db : Table) :
    List.Chain' (fun a b => storedRevision a streamId ≤ storedRevision b streamId)
      (trace db calls) := by
  induction calls generalizing db with
  | nil => exact List.chain'_singleton db
  | cons c cs ih =>
    unfold trace
    rw [List.chain'_cons']
    refine ⟨?_, ih (fun c' hc' => h c' (List.mem_cons_of_mem c hc')) (c.run db)⟩
    intro y hy
    rw [trace_head] at hy
    cases hy
    exact Call.run_step db streamId c (h c (List.mem_cons_self c cs))

theorem stored_revision_monotone_witness :
    List.Chain' (fun a b => storedRevision a "s" ≤ storedRevision b "s")
      (trace emptyTable
        [.updateOne "s" 0 none,
         .updateMultiple (.array [⟨"s", 1, some 4⟩, ⟨"t", 0, some 0⟩]),
         .updateMultiple (.object [⟨"s", 4, some 4⟩])]) :=
  stored_revision_monotone _ "s" (by decide) emptyTable


/-! ## Organization: lemmas -/

theorem lookup_isSome_iff_mem_keys {α : Type} (l : List (String × α)) (k : String) :
    (l.lookup k).isSome = true ↔ k ∈ l.map Prod.fst := by
  induction l with
  | nil => simp
  | cons p rest ih =>
    obtain ⟨a, w⟩ := p
    by_cases hk : k = a
    · subst hk
      simp only [List.lookup_cons, beq_self_eq_true, Option.isSome_some, List.map_cons,
        List.mem_cons, true_or]
    · have h1 : (k == a) = false := beq_eq_false_iff_ne.mpr hk
      simp only [List.lookup_cons, h1, List.map_cons, List.mem_cons, hk, false_or]
      exact ih

theorem JsObject.truthyAt_of_mem_keys {α : Type} (obj : JsObject α) (k : String)
    (h : k ∈ obj.map Prod.fst) : obj.truthyAt k = true := by
  unfold JsObject.truthyAt
  rw [(lookup_isSome_iff_mem_keys obj k).mpr h]
  rfl

theorem JsObject.assign_keys_nodup {α : Type} (obj : JsObject α) (k : String) (v : α)
    (hk : obj.truthyAt k = false) (h : (obj.map Prod.fst).Nodup) :
    ((obj.assign k v).map Prod.fst).Nodup := by
  unfold JsObject.truthyAt at hk
  rw [Bool.or_eq_false_iff] at hk
  have hnot : k ∉ obj.map Prod.fst := by
    intro hmem
    rw [(lookup_isSome_iff_mem_keys obj k).mpr hmem] at hk
    exact Bool.noConfusion hk.1
  unfold JsObject.assign
  rw [hk.1]
  simp only [Bool.false_eq_true, if_false, List.map_append, List.map_cons, List.map_nil]
  rw [List.nodup_append]
  refine ⟨h, List.nodup_singleton k, ?_⟩
  intro x hx hx2
  rw [List.mem_singleton] at hx2
  exact hnot (hx2 ▸ hx)

/-- The error `_checkIfDeleted` throws. -/
theorem checkIfDeleted_of_deleted (org : Organization) (h : org.isDeleted = true) :
    org._checkIfDeleted = some (.organizationError .organizationDeletedError
      "Organization is deleted and no more action can be taken on it") := by
  simp [Organization._checkIfDeleted, h]

theorem checkIfDeleted_of_not_deleted (org : Organization) (h : org.isDeleted = false) :
    org._checkIfDeleted = none := by
  simp [Organization._checkIfDeleted, h]

theorem JsObject.truthyAt_eq_false {α : Type} (obj : JsObject α) (k : String)
    (h : k ∉ obj.map Prod.fst) (hp : k ∉ objectPrototypeKeys) : obj.truthyAt k = false := by
  unfold JsObject.truthyAt
  rw [Bool.or_eq_false_iff]
  constructor
  · cases hl : (obj.lookup k).isSome with
    | false => rfl
    | true => exact absurd ((lookup_isSome_iff_mem_keys obj k).mp hl) h
  · cases hc : objectPrototypeKeys.contains k with
    | false => rfl
    | true => exact absurd (by simpa using hc) hp

theorem JsObject.assign_keys_of_mem {α : Type} (obj : JsObject α) (k : String) (v : α)
    (h : (obj.lookup k).isSome = true) :
    (obj.assign k v).map Prod.fst = obj.map Prod.fst := by
  unfold JsObject.assign
  rw [if_pos h, List.map_map]
  apply List.map_congr_left
  intro p _
  by_cases hk : p.1 = k
  · simp [hk]
  · simp [hk]

/-- Outside the names inherited from `Object.prototype`, a user id that is not a key of the
users is rejected by `removeUser`, `assignRolesToUser` and `removeRolesFromUser`. -/
theorem absent_user_rejected (org : Organization) (h : org.isDeleted = false)
    (userId : String) (hu : userId ∉ org._users.map Prod.fst)
    (hp : userId ∉ objectPrototypeKeys) (roles : JsValue) :
    org.removeUser (.atom (.string userId)) =
      ⟨org, some (.organizationError .userDoesNotExistError
        ("user with id " ++ userId ++ " does not exist in the organization"))⟩ ∧
    org.assignRolesToUser (.atom (.string userId)) roles =
      ⟨org, some (.organizationError .userDoesNotExistError
        ("user with id " ++ userId ++ " does not exist in the organization"))⟩ ∧
    org.removeRolesFromUser (.atom (.string userId)) roles =
      ⟨org, some (.organizationError .userDoesNotExistError
        ("user with id " ++ userId ++ " does not exist in the organization"))⟩ := by
  have hc := checkIfDeleted_of_not_deleted org h
  have ht := JsObject.truthyAt_eq_false org._users userId hu hp
  refine ⟨?_, ?_, ?_⟩
  · simp [Organization.removeUser, hc, JsValue.asString, ht]
  · simp [Organization.assignRolesToUser, Organization.changeRolesOfUser, hc,
      JsValue.asString, ht]
  · simp [Organization.removeRolesFromUser, Organization.changeRolesOfUser, hc,
      JsValue.asString, ht]

/-- The loop over the roles throws the role-does-not-exist error when the user is a key of
the users and some element of the list is neither a key of the roles nor inherited. -/
theorem forEachRole_absent_role (op : JsSet → JsAtom → JsSet) (method userId : String)
    (roles : List JsAtom) :
    ∀ org : Organization, userId ∈ org._users.map Prod.fst →
      (∃ r ∈ roles, org._roles.truthyAt r.toPropertyKey = false) →
      ∃ msg, (Organization.forEachRole op method userId org roles).thrown
        = some (.organizationError .roleDoesNotExistError msg) := by
  induction roles with
  | nil => intro org _ ⟨r, hr, _⟩; cases hr
  | cons r rest ih =>
    intro org hu hex
    unfold Organization.forEachRole
    cases ht : org._roles.truthyAt r.toPropertyKey with
    | false => exact ⟨_, rfl⟩
    | true =>
      have hl := (lookup_isSome_iff_mem_keys org._users userId).mpr hu
      cases hs : org._users.lookup userId with
      | none => rw [hs] at hl; cases hl
      | some set =>
        simp only [Bool.not_true, Bool.false_eq_true, if_false]
        apply ih
        · show userId ∈ (JsObject.assign org._users userId (op set r)).map Prod.fst
          rw [JsObject.assign_keys_of_mem _ _ _ hl]
          exact hu
        · obtain ⟨r', hr', hf⟩ := hex
          rcases List.mem_cons.mp hr' with e | e
          · subst e; rw [ht] at hf; cases hf
          · exact ⟨r', e, hf⟩

/-- Outside the names inherited from `Object.prototype`: for an existing user and a list of
string role ids one of which is not a key of the roles, `assignRolesToUser` and
`removeRolesFromUser` throw the role-does-not-exist error. -/
theorem absent_role_rejected (org : Organization) (h : org.isDeleted = false)
    (userId : String) (hu : userId ∈ org._users.map Prod.fst) (ids : List String)
    (hex : ∃ id ∈ ids, id ∉ org._roles.map Prod.fst ∧ id ∉ objectPrototypeKeys) :
    (∃ msg, (org.assignRolesToUser (.atom (.string userId))
        (.array (ids.map JsAtom.string))).thrown
      = some (.organizationError .roleDoesNotExistError msg)) ∧
    (∃ msg, (org.removeRolesFromUser (.atom (.string userId))
        (.array (ids.map JsAtom.string))).thrown
      = some (.organizationError .roleDoesNotExistError msg)) := by
  have hc := checkIfDeleted_of_not_deleted org h
  have ht := JsObject.truthyAt_of_mem_keys org._users userId hu
  have hex2 : ∃ r ∈ ids.map JsAtom.string, org._roles.truthyAt r.toPropertyKey = false := by
    obtain ⟨id, hid, h1, h2⟩ := hex
    exact ⟨.string id, List.mem_map_of_mem _ hid, JsObject.truthyAt_eq_false _ _ h1 h2⟩
  cases ids with
  | nil => obtain ⟨id, hid, _⟩ := hex; cases hid
  | cons id rest =>
    constructor
    · simp only [Organization.assignRolesToUser, Organization.changeRolesOfUser, hc,
        JsValue.asString, ht, List.map_cons]
      exact forEachRole_absent_role _ _ userId _ org hu hex2
    · simp only [Organization.removeRolesFromUser, Organization.changeRolesOfUser, hc,
        JsValue.asString, ht, List.map_cons]
      exact forEachRole_absent_role _ _ userId _ org hu hex2

/-- C5: on a deleted organization (`delete()` makes every organization one) each of
`addRole`, `removeRole`, `addUser`, `assignRolesToUser`, `removeRolesFromUser` and
`removeUser` throws the organization-deleted error whatever the arguments are, valid or
not, and leaves the organization, so its name, status, roles and users, as it was. -/
theorem deleted_rejects_every_mutation (org : Organization) (h : org.isDeleted = true)
    (a b : JsValue) :
    org.addRole a = ⟨org, some (.organizationError .organizationDeletedError
      "Organization is deleted and no more action can be taken on it")⟩ ∧
    org.removeRole a = ⟨org, some (.organizationError .organizationDeletedError
      "Organization is deleted and no more action can be taken on it")⟩ ∧
    org.addUser a b = ⟨org, some (.organizationError .organizationDeletedError
      "Organization is deleted and no more action can be taken on it")⟩ ∧
    org.assignRolesToUser a b = ⟨org, some (.organizationError .organizationDeletedError
      "Organization is deleted and no more action can be taken on it")⟩ ∧
    org.removeRolesFromUser a b = ⟨org, some (.organizationError .organizationDeletedError
      "Organization is deleted and no more action can be taken on it")⟩ ∧
    org.removeUser a = ⟨org, some (.organizationError .organizationDeletedError
      "Organization is deleted and no more action can be taken on it")⟩ ∧
    (∀ o : Organization, o.delete.org.isDeleted = true) := by
  have hc := checkIfDeleted_of_deleted org h
  refine ⟨?_, ?_, ?_, ?_, ?_, ?_, fun o => rfl⟩
  · simp only [Organization.addRole, hc]
  · simp only [Organization.removeRole, hc]
  · simp only [Organization.addUser, hc]
  · simp only [Organization.assignRolesToUser, Organization.changeRolesOfUser, hc]
  · simp only [Organization.removeRolesFromUser, Organization.changeRolesOfUser, hc]
  · simp only [Organization.removeUser, hc]

theorem deleted_rejects_every_mutation_witness :
    ((Organization.create "id1" (.atom (.string "Risto"))).delete.org.addRole
        (.role ⟨"waiter", ["addRole"]⟩)).thrown
      = some (.organizationError .organizationDeletedError
          "Organization is deleted and no more action can be taken on it") :=
  congrArg Outcome.thrown
    (deleted_rejects_every_mutation
      (Organization.create "id1" (.atom (.string "Risto"))).delete.org rfl
      (.role ⟨"waiter", ["addRole"]⟩) (.atom .undefined)).1

/-- C6 at the failing input: `delete()` on `new Organization('Risto')` that was already
deleted throws nothing; the second call returns like the first. -/
theorem delete_twice_does_not_throw :
    (Organization.create "id1" (.atom (.string "Risto"))).delete.org.isDeleted = true ∧
    (Organization.create "id1" (.atom (.string "Risto"))).delete.org.delete
      = ⟨(Organization.create "id1" (.atom (.string "Risto"))).delete.org, none⟩ := by
  decide

/-- C7: on an organization that is not deleted, `addRole(role)` with a `Role` whose `roleId`
is already a key of the roles throws the role-already-exists error, and `addUser(userId)`
(with or without roles) for a `userId` that is already a key of the users throws the
user-already-exists error; either call leaves the organization as it was. Whatever the
arguments, after `addRole` the role ids are pairwise distinct if they were before, and
after `addUser` so are the user ids. -/
theorem duplicate_role_or_user_rejected (org : Organization) (h : org.isDeleted = false) :
    (∀ r : Role, r.roleId ∈ org._roles.map Prod.fst →
      org.addRole (.role r) = ⟨org, some (.organizationError .roleAlreadyExistsError
        ("role with id " ++ r.roleId ++ " already exists"))⟩) ∧
    (∀ (userId : String) (roles : JsValue), userId ∈ org._users.map Prod.fst →
      org.addUser (.atom (.string userId)) roles =
        ⟨org, some (.organizationError .userAlreadyExistsError
          ("user with id " ++ userId ++ " already exists in the organization"))⟩) ∧
    (∀ role : JsValue, (org._roles.map Prod.fst).Nodup →
      ((org.addRole role).org._roles.map Prod.fst).Nodup) ∧
    (∀ userId roles : JsValue, (org._users.map Prod.fst).Nodup →
      ((org.addUser userId roles).org._users.map Prod.fst).Nodup) := by
  have hc := checkIfDeleted_of_not_deleted org h
  refine ⟨?_, ?_, ?_, ?_⟩
  · intro r hr
    simp only [Organization.addRole, hc, JsObject.truthyAt_of_mem_keys _ _ hr, if_true]
  · intro userId roles hu
    simp only [Organization.addUser, hc, JsValue.asString,
      JsObject.truthyAt_of_mem_keys _ _ hu, if_true]
  · intro role hn
    simp only [Organization.addRole, hc]
    cases role with
    | atom a => exact hn
    | array xs => exact hn
    | role r =>
      cases ht : org._roles.truthyAt r.roleId with
      | true => simpa [ht] using hn
      | false => simpa [ht] using JsObject.assign_keys_nodup org._roles r.roleId r ht hn
  · intro userId roles hn
    simp only [Organization.addUser, hc]
    cases hs : userId.asString with
    | none => exact hn
    | some id =>
      cases ht : org._users.truthyAt id with
      | true => simpa [ht] using hn
      | false =>
        have := JsObject.assign_keys_nodup org._users id ([] : JsSet) ht hn
        cases hr : roles.truthy <;> simpa [ht, hr] using this

theorem duplicate_role_or_user_rejected_witness :
    ((Organization.create "id1" (.atom (.string "Risto"))).addRole
        (.role ⟨"waiter", ["addRole"]⟩)).org.addRole (.role ⟨"waiter", []⟩)
      = ⟨((Organization.create "id1" (.atom (.string "Risto"))).addRole
            (.role ⟨"waiter", ["addRole"]⟩)).org,
          some (.organizationError .roleAlreadyExistsError
            "role with id waiter already exists")⟩ :=
  (duplicate_role_or_user_rejected
    ((Organization.create "id1" (.atom (.string "Risto"))).addRole
      (.role ⟨"waiter", ["addRole"]⟩)).org rfl).1 ⟨"waiter", []⟩ (by decide)

/-- C8 at the failing input: on `new Organization('Risto')`, which has no role, the call
`removeRole('aa')` throws nothing and returns with the organization as it was. -/
theorem removeRole_absent_does_not_throw :
    (Organization.create "id1" (.atom (.string "Risto"))).isDeleted = false ∧
    (Organization.create "id1" (.atom (.string "Risto"))).removeRole (.atom (.string "aa"))
      = ⟨Organization.create "id1" (.atom (.string "Risto")), none⟩ := by
  decide

/-- C9 at the failing input: the organization has the role `waiter` and no user, and the
user id is `'constructor'`, a name every plain object inherits. `removeUser` returns without
throwing, `assignRolesToUser` and `removeRolesFromUser` with `['waiter']` throw a
`TypeError`, and with no roles argument they throw the parameter error: none of the calls
throws the user-does-not-exist error. -/
theorem absent_inherited_user_not_rejected :
    ((Organization.create "id1" (.atom (.string "Risto"))).addRole
        (.role ⟨"waiter", ["addRole"]⟩)).org.users = [] ∧
    (((Organization.create "id1" (.atom (.string "Risto"))).addRole
        (.role ⟨"waiter", ["addRole"]⟩)).org.removeUser
          (.atom (.string "constructor"))).thrown = none ∧
    (((Organization.create "id1" (.atom (.string "Risto"))).addRole
        (.role ⟨"waiter", ["addRole"]⟩)).org.assignRolesToUser
          (.atom (.string "constructor")) (.array [.string "waiter"])).thrown
      = some (.typeError "this._users[userId].add is not a function") ∧
    (((Organization.create "id1" (.atom (.string "Risto"))).addRole
        (.role ⟨"waiter", ["addRole"]⟩)).org.removeRolesFromUser
          (.atom (.string "constructor")) (.array [.string "waiter"])).thrown
      = some (.typeError "this._users[userId].delete is not a function") ∧
    (((Organization.create "id1" (.atom (.string "Risto"))).addRole
        (.role ⟨"waiter", ["addRole"]⟩)).org.assignRolesToUser
          (.atom (.string "constructor")) (.atom .undefined)).thrown
      = some (.organizationError .paramError
          "roles must be a non empty array of role names") := by
  decide

/-- C10 at the failing input: the organization has the user `u1` and no role, and the role
list is `['constructor']`, a name every plain object inherits. Both `assignRolesToUser` and
`removeRolesFromUser` return without throwing, and the first leaves `u1` holding the role id
`'constructor'`. -/
theorem absent_inherited_role_not_rejected :
    ((Organization.create "id1" (.atom (.string "Risto"))).addUser
        (.atom (.string "u1")) (.atom .undefined)).org.roles = [] ∧
    ((Organization.create "id1" (.atom (.string "Risto"))).addUser
        (.atom (.string "u1")) (.atom .undefined)).org.assignRolesToUser
          (.atom (.string "u1")) (.array [.string "constructor"])
      = ⟨{ (Organization.create "id1" (.atom (.string "Risto"))) with
            _users := [("u1", [.string "constructor"])] }, none⟩ ∧
    (((Organization.create "id1" (.atom (.string "Risto"))).addUser
        (.atom (.string "u1")) (.atom .undefined)).org.removeRolesFromUser
          (.atom (.string "u1")) (.array [.string "constructor"])).thrown = none := by
  decide

/-! ## Organization: adding users and roles -/

/-- C11 at the failing input: the organization has the role `waiter` and no user; the call
`addUser('u1', ['waiter'])` throws a `TypeError`, because the method it calls for the roles,
`assignRoles`, does not exist, and leaves `u1` in the organization with no role. -/
theorem addUser_with_roles_throws :
    ((Organization.create "id1" (.atom (.string "Risto"))).addRole
        (.role ⟨"waiter", ["addRole"]⟩)).org.addUser
          (.atom (.string "u1")) (.array [.string "waiter"])
      = ⟨{ (Organization.create "id1" (.atom (.string "Risto"))) with
            _roles := [("waiter", ⟨"waiter", ["addRole"]⟩)]
            _users := [("u1", [])] },
          some (.typeError "this.assignRoles is not a function")⟩ := by
  decide

/-- C12 at the failing input: on `new Organization('Risto')`, to which no user was added,
`addUser('constructor')` throws the user-already-exists error and adds no user. -/
theorem addUser_inherited_name_rejected :
    (Organization.create "id1" (.atom (.string "Risto"))).users = [] ∧
    (Organization.create "id1" (.atom (.string "Risto"))).addUser
        (.atom (.string "constructor")) (.atom .undefined)
      = ⟨Organization.create "id1" (.atom (.string "Risto")),
          some (.organizationError .userAlreadyExistsError
            "user with id constructor already exists in the organization")⟩ := by
  decide

/-- C14 at the failing input: on `new Organization('Risto')`, which has no role, `addRole`
of a `Role` whose `roleId` is `'constructor'` throws the role-already-exists error and adds
no role. -/
theorem addRole_inherited_name_rejected :
    (Organization.create "id1" (.atom (.string "Risto"))).roles = [] ∧
    (Organization.create "id1" (.atom (.string "Risto"))).addRole
        (.role ⟨"constructor", ["addRole"]⟩)
      = ⟨Organization.create "id1" (.atom (.string "Risto")),
          some (.organizationError .roleAlreadyExistsError
            "role with id constructor already exists")⟩ := by
  decide

/-- C19 at the failing inputs: `new Organization()`, `new Organization('')` and
`new Organization({})` throw nothing; each returns an organization whose name is the
argument as it was passed. -/
theorem constructor_accepts_any_name :
    Organization.create "id1" (.atom .undefined)
      = { orgId := "id1", name := .atom .undefined, status := none, _roles := [],
          _users := [] } ∧
    Organization.create "id1" (.atom (.string ""))
      = { orgId := "id1", name := .atom (.string ""), status := none, _roles := [],
          _users := [] } ∧
    Organization.create "id1" (.atom (.object 0))
      = { orgId := "id1", name := .atom (.object 0), status := none, _roles := [],
          _users := [] } := by
  decide

/-! ## Order-control store: batched read and reset -/

/-- C15 at the failing input: on the empty table `getMultiple(['constructor'])` returns the
function that `Object.prototype` binds to `constructor`, not an entry with a stream id and
an event id, while `getOne('constructor')` returns the stream id with event id `0`. On a
record without the attribute `LastProcessedEventId` the batched read gives `undefined` for
the event id, where `getOne` gives `0`. -/
theorem getMultiple_inherited_name :
    getMultiple emptyTable ["constructor"] = [.inherited "constructor"] ∧
    getOne emptyTable "constructor" = { streamId := .S "constructor", eventId := .N 0 } ∧
    getMultiple (emptyTable.put (.S "s") [("StreamId", .S "s")]) ["s"]
      = [.entry { streamId := some (.S "s"), eventId := none }] ∧
    getOne (emptyTable.put (.S "s") [("StreamId", .S "s")]) "s"
      = { streamId := .S "s", eventId := .N 0 } := by
  decide

/-- C17 at the failing input: the stream `s` is at revision `1`; after `reset()` the point
read still returns event id `1`, and `updateOne('s', 0, 1)` still fails. -/
theorem reset_clears_nothing :
    (getOne (reset (updateOne emptyTable "s" 0 (some 1)).1) "s").eventId = .N 1 ∧
    (updateOne (reset (updateOne emptyTable "s" 0 (some 1)).1) "s" 0 (some 1)).2
      = .error .ConditionalCheckFailedException := by
  constructor
  · decide
  · rfl

/-! ## Plain objects as maps: lemmas -/

theorem lookup_filter_key {α : Type} (p : String → Bool) (l : List (String × α))
    (k : String) :
    (l.filter (fun q => p q.1)).lookup k = if p k then l.lookup k else none := by
  induction l with
  | nil => simp
  | cons a rest ih =>
    obtain ⟨b, w⟩ := a
    by_cases hk : k = b
    · subst hk
      cases hp : p k with
      | true => simp [List.filter_cons, hp]
      | false => simpa [List.filter_cons, hp] using ih
    · have h1 : (k == b) = false := beq_eq_false_iff_ne.mpr hk
      cases hp : p b with
      | true => simp only [List.filter_cons, hp, if_true, List.lookup_cons, h1]; exact ih
      | false =>
        simp only [List.filter_cons, hp, Bool.false_eq_true, if_false, List.lookup_cons, h1]
        exact ih

theorem lookup_orderedInsert {α : Type} (f : String → Nat) (a : String × α)
    (l : List (String × α)) (k : String) :
    (l.orderedInsert (fun p q => f p.1 ≤ f q.1) a).lookup k = (a :: l).lookup k := by
  induction l with
  | nil => rfl
  | cons b rest ih =>
    obtain ⟨ka, va⟩ := a
    obtain ⟨kb, vb⟩ := b
    by_cases hr : f ka ≤ f kb
    · have hins : List.orderedInsert (fun p q : String × α => f p.1 ≤ f q.1) (ka, va)
          ((kb, vb) :: rest) = (ka, va) :: (kb, vb) :: rest := by
        simp only [List.orderedInsert, hr, if_true]
      rw [hins]
    · have hne : ka ≠ kb := fun e => hr (e ▸ Nat.le_refl _)
      have hins : List.orderedInsert (fun p q : String × α => f p.1 ≤ f q.1) (ka, va)
          ((kb, vb) :: rest)
          = (kb, vb) :: List.orderedInsert (fun p q : String × α => f p.1 ≤ f q.1) (ka, va)
              rest := by
        simp only [List.orderedInsert, hr, if_false]
      rw [hins]
      simp only [List.lookup_cons] at ih ⊢
      rw [ih]
      by_cases h1 : k = kb
      · subst h1
        have h2 : (k == ka) = false := beq_eq_false_iff_ne.mpr (fun e => hne e.symm)
        simp [h2]
      · have h2 : (k == kb) = false := beq_eq_false_iff_ne.mpr h1
        simp [h2]

theorem lookup_insertionSort {α : Type} (f : String → Nat) (l : List (String × α))
    (k : String) :
    (l.insertionSort (fun p q => f p.1 ≤ f q.1)).lookup k = l.lookup k := by
  induction l with
  | nil => rfl
  | cons a rest ih =>
    rw [List.insertionSort, lookup_orderedInsert]
    obtain ⟨ka, va⟩ := a
    simp only [List.lookup_cons, ih]

/-- Reading a key of an object does not depend on the order `Object.keys` lists the keys
in. -/
theorem JsObject.lookup_ordered {α : Type} (obj : JsObject α) (k : String) :
    obj.ordered.lookup k = obj.lookup k := by
  unfold JsObject.ordered
  rw [List.lookup_append, lookup_insertionSort (fun key => (arrayIndex key).getD 0),
    lookup_filter_key (fun key => (arrayIndex key).isSome),
    lookup_filter_key (fun key => (arrayIndex key).isNone)]
  cases h : arrayIndex k with
  | none => simp
  | some n => simp

/-- The properties `Object.keys` lists are the own properties, in another order. -/
theorem JsObject.ordered_perm {α : Type} (obj : JsObject α) : obj.ordered.Perm obj := by
  unfold JsObject.ordered
  refine ((List.perm_insertionSort _ _).append_right _).trans ?_
  have h := List.filter_append_perm (fun p : String × α => (arrayIndex p.1).isSome) obj
  have e : (fun p : String × α => (arrayIndex p.1).isNone)
      = (fun p : String × α => !(arrayIndex p.1).isSome) := by
    funext p; cases arrayIndex p.1 <;> rfl
  rw [e]
  simpa using h

theorem JsObject.lookup_isSome_false_of_not_mem {α : Type} (obj : JsObject α) (k : String)
    (h : k ∉ obj.map Prod.fst) : (obj.lookup k).isSome = false := by
  cases hl : (obj.lookup k).isSome with
  | false => rfl
  | true => exact absurd ((lookup_isSome_iff_mem_keys obj k).mp hl) h

theorem JsObject.deleteKey_of_not_mem {α : Type} (obj : JsObject α) (k : String)
    (h : k ∉ obj.map Prod.fst) : obj.deleteKey k = obj := by
  unfold JsObject.deleteKey
  rw [List.filter_eq_self]
  intro p hp
  have : p.1 ≠ k := fun e => h (e ▸ List.mem_map_of_mem Prod.fst hp)
  simpa using this

theorem JsObject.deleteKey_assign_new {α : Type} (obj : JsObject α) (k : String) (v : α)
    (h : k ∉ obj.map Prod.fst) : (obj.assign k v).deleteKey k = obj := by
  unfold JsObject.assign
  rw [JsObject.lookup_isSome_false_of_not_mem obj k h]
  simp only [Bool.false_eq_true, if_false]
  have h1 := JsObject.deleteKey_of_not_mem obj k h
  unfold JsObject.deleteKey at h1 ⊢
  rw [List.filter_append, h1]
  simp

theorem JsObject.lookup_assign_self {α : Type} (obj : JsObject α) (k : String) (v : α) :
    (obj.assign k v).lookup k = some v := by
  unfold JsObject.assign
  split
  · rename_i h; exact lookup_map_replace obj k v h
  · rename_i h; exact lookup_append_new obj k v (Bool.eq_false_iff.mpr h)

theorem lookup_map_replace_other {α : Type} (l : List (String × α)) (k k' : String) (v : α)
    (h : k' ≠ k) :
    (l.map (fun p => if p.1 == k then (k, v) else p)).lookup k' = l.lookup k' := by
  have h1 : (k' == k) = false := beq_eq_false_iff_ne.mpr h
  induction l with
  | nil => rfl
  | cons p rest ih =>
    obtain ⟨a, w⟩ := p
    by_cases ha : a = k
    · subst ha
      simp only [List.map_cons, beq_self_eq_true, if_true, List.lookup_cons, h1]
      exact ih
    · have h2 : (a == k) = false := beq_eq_false_iff_ne.mpr ha
      simp only [List.map_cons, h2, Bool.false_eq_true, if_false, List.lookup_cons]
      rw [ih]

theorem JsObject.lookup_assign_other {α : Type} (obj : JsObject α) (k k' : String) (v : α)
    (h : k' ≠ k) : (obj.assign k v).lookup k' = obj.lookup k' := by
  have h1 : (k' == k) = false := beq_eq_false_iff_ne.mpr h
  unfold JsObject.assign
  split
  · exact lookup_map_replace_other obj k k' v h
  · rw [List.lookup_append]
    simp [List.lookup_cons, h1]

/-! ## Organization: roles of a user -/

/-- The loop over the roles, when the user is a key of the users and every element names a
role: nothing is thrown, the user's set is the fold of the operation over the elements, and
nothing else changes. -/
theorem forEachRole_ok (op : JsSet → JsAtom → JsSet) (method userId : String)
    (rs : List JsAtom) :
    ∀ (org : Organization) (held : JsSet), org._users.lookup userId = some held →
      (∀ r ∈ rs, org._roles.truthyAt r.toPropertyKey = true) →
      (Organization.forEachRole op method userId org rs).thrown = none ∧
      (Organization.forEachRole op method userId org rs).org._users.lookup userId
        = some (rs.foldl op held) ∧
      (∀ v, v ≠ userId →
        (Organization.forEachRole op method userId org rs).org._users.lookup v
          = org._users.lookup v) ∧
      (Organization.forEachRole op method userId org rs).org._roles = org._roles ∧
      (Organization.forEachRole op method userId org rs).org.orgId = org.orgId ∧
      (Organization.forEachRole op method userId org rs).org.name = org.name ∧
      (Organization.forEachRole op method userId org rs).org.status = org.status := by
  induction rs with
  | nil =>
    intro org held hu _
    exact ⟨rfl, hu, fun _ _ => rfl, rfl, rfl, rfl, rfl⟩
  | cons r rest ih =>
    intro org held hu hr
    have ht := hr r (List.mem_cons_self r rest)
    have step : Organization.forEachRole op method userId org (r :: rest)
        = Organization.forEachRole op method userId
            { org with _users := org._users.assign userId (op held r) } rest := by
      rw [Organization.forEachRole]
      simp only [ht, Bool.not_true, Bool.false_eq_true, if_false, hu]
    rw [step]
    obtain ⟨h1, h2, h3, h4, h5, h6, h7⟩ :=
      ih { org with _users := org._users.assign userId (op held r) } (op held r)
        (JsObject.lookup_assign_self _ _ _)
        (fun r' hr' => hr r' (List.mem_cons_of_mem r hr'))
    refine ⟨h1, ?_, ?_, h4, h5, h6, h7⟩
    · rw [h2]; rfl
    · intro v hv
      rw [h3 v hv]
      exact JsObject.lookup_assign_other _ _ _ _ hv

theorem not_mem_filter_ne (x : JsAtom) (l : List JsAtom) :
    x ∉ l.filter (fun y => y != x) := by
  intro h
  rw [List.mem_filter] at h
  simp at h

theorem firstOccurrences_cons (x : JsAtom) (xs : List JsAtom) :
    firstOccurrences (x :: xs) = x :: (firstOccurrences xs).filter (fun y => y != x) := rfl

/-- Adding the elements of `rs` one by one to a set gives the role list of the
specification. -/
theorem foldl_add_eq_rolesAfterAssign (rs : List JsAtom) :
    ∀ held : JsSet, rs.foldl JsSet.add held = rolesAfterAssign held rs := by
  induction rs with
  | nil => intro held; simp [rolesAfterAssign, firstOccurrences]
  | cons r rest ih =>
    intro held
    rw [List.foldl_cons, ih]
    unfold rolesAfterAssign JsSet.add
    rw [firstOccurrences_cons]
    by_cases hr : r ∈ held
    · simp only [hr, if_true, List.filter_cons, not_true_eq_false, decide_False,
        Bool.false_eq_true, if_false, List.filter_filter]
      congr 1
      apply List.filter_congr
      intro y _
      by_cases hy : y ∈ held
      · simp [hy]
      · have : y ≠ r := fun e => hy (e ▸ hr)
        simp [hy, this]
    · simp only [hr, if_false, List.filter_cons, not_false_eq_true, decide_True, if_true,
        List.filter_filter, List.append_assoc, List.singleton_append]
      congr 2
      apply List.filter_congr
      intro y _
      by_cases hy : y = r
      · simp [hy]
      · by_cases hy2 : y ∈ held <;> simp [hy, hy2]

theorem JsObject.truthyAt_of_lookup {α : Type} (obj : JsObject α) (k : String) (v : α)
    (h : obj.lookup k = some v) : obj.truthyAt k = true := by
  unfold JsObject.truthyAt
  rw [h]
  rfl

/-- `assignRolesToUser` and `removeRolesFromUser` for an existing user and a non-empty list
of ids of existing roles are the loop over the list. -/
theorem changeRolesOfUser_eq_forEachRole (op : JsSet → JsAtom → JsSet) (method : String)
    (org : Organization) (h : org.isDeleted = false) (userId : String) (held : JsSet)
    (hu : org._users.lookup userId = some held) (rs : List String) (hne : rs ≠ []) :
    Organization.changeRolesOfUser op method org (.atom (.string userId))
        (.array (rs.map JsAtom.string))
      = Organization.forEachRole op method userId org (rs.map JsAtom.string) := by
  have hc := checkIfDeleted_of_not_deleted org h
  have ht := JsObject.truthyAt_of_lookup org._users userId held hu
  cases rs with
  | nil => exact absurd rfl hne
  | cons id rest =>
    simp only [Organization.changeRolesOfUser, hc, JsValue.asString, ht, List.map_cons,
      Bool.not_true, Bool.false_eq_true, if_false]

/-- C13: on an organization that is not deleted, for an existing user whose role list is
`held` and a non-empty list `rs` of ids of existing roles, `assignRolesToUser(u, rs)`
throws nothing; afterwards `users[u]` is `held` followed by the ids of `rs` that were not in
`held`, each once and in order of first occurrence, every other user has the role list it
had, and the roles, the name, the status and the id are unchanged. -/
theorem assignRolesToUser_adds_roles (org : Organization) (h : org.isDeleted = false)
    (userId : String) (held : List JsAtom) (hu : org.users.lookup userId = some held)
    (rs : List String) (hne : rs ≠ []) (hrs : ∀ r ∈ rs, r ∈ org._roles.map Prod.fst) :
    (org.assignRolesToUser (.atom (.string userId)) (.array (rs.map JsAtom.string))).thrown
      = none ∧
    (org.assignRolesToUser (.atom (.string userId))
        (.array (rs.map JsAtom.string))).org.users.lookup userId
      = some (rolesAfterAssign held (rs.map JsAtom.string)) ∧
    (∀ v, v ≠ userId →
      (org.assignRolesToUser (.atom (.string userId))
          (.array (rs.map JsAtom.string))).org.users.lookup v = org.users.lookup v) ∧
    (org.assignRolesToUser (.atom (.string userId))
        (.array (rs.map JsAtom.string))).org.roles = org.roles ∧
    (org.assignRolesToUser (.atom (.string userId))
        (.array (rs.map JsAtom.string))).org.name = org.name ∧
    (org.assignRolesToUser (.atom (.string userId))
        (.array (rs.map JsAtom.string))).org.status = org.status ∧
    (org.assignRolesToUser (.atom (.string userId))
        (.array (rs.map JsAtom.string))).org.orgId = org.orgId := by
  have hu2 : org._users.lookup userId = some held := by
    rw [← JsObject.lookup_ordered]; exact hu
  have hroles : ∀ r ∈ rs.map JsAtom.string, org._roles.truthyAt r.toPropertyKey = true := by
    intro r hr
    obtain ⟨id, hid, rfl⟩ := List.mem_map.mp hr
    exact JsObject.truthyAt_of_mem_keys _ _ (hrs id hid)
  unfold Organization.assignRolesToUser
  rw [changeRolesOfUser_eq_forEachRole JsSet.add "add" org h userId held hu2 rs hne]
  obtain ⟨h1, h2, h3, h4, h5, h6, h7⟩ :=
    forEachRole_ok JsSet.add "add" userId (rs.map JsAtom.string) org held hu2 hroles
  refine ⟨h1, ?_, ?_, ?_, h6, h7, h5⟩
  · unfold Organization.users
    rw [JsObject.lookup_ordered, h2, foldl_add_eq_rolesAfterAssign]
  · intro v hv
    unfold Organization.users
    rw [JsObject.lookup_ordered, JsObject.lookup_ordered, h3 v hv]
  · unfold Organization.roles
    rw [h4]

theorem assignRolesToUser_adds_roles_witness :
    ((((Organization.create "id1" (.atom (.string "Risto"))).addRole
        (.role ⟨"waiter", ["addRole"]⟩)).org.addUser (.atom (.string "u1"))
          (.atom .undefined)).org.assignRolesToUser (.atom (.string "u1"))
            (.array (["waiter", "waiter"].map JsAtom.string))).org.users.lookup "u1"
      = some (rolesAfterAssign [] (["waiter", "waiter"].map JsAtom.string)) :=
  (assignRolesToUser_adds_roles
    (((Organization.create "id1" (.atom (.string "Risto"))).addRole
        (.role ⟨"waiter", ["addRole"]⟩)).org.addUser (.atom (.string "u1"))
          (.atom .undefined)).org
    rfl "u1" [] (by rw [Organization.users, JsObject.lookup_ordered]; decide)
    ["waiter", "waiter"] (by decide) (by decide)).2.1

/-- C20: on an organization that is not deleted, for a `Role` whose `roleId` is not yet a
key of the roles, `addRole(role)` followed by `removeRole(role.roleId)` leaves the
organization, so its roles and users, exactly as it was before the `addRole`, and
`removeRole` throws nothing; unless the id is a name inherited from `Object.prototype`,
`addRole` throws nothing either and the role is kept under its id in between. -/
theorem addRole_then_removeRole_restores (org : Organization) (h : org.isDeleted = false)
    (role : Role) (hr : role.roleId ∉ org._roles.map Prod.fst) :
    (org.addRole (.role role)).org.removeRole (.atom (.string role.roleId)) = ⟨org, none⟩ ∧
    ((org.addRole (.role role)).org.removeRole (.atom (.string role.roleId))).org.roles
      = org.roles ∧
    ((org.addRole (.role role)).org.removeRole (.atom (.string role.roleId))).org.users
      = org.users ∧
    (role.roleId ∉ objectPrototypeKeys →
      (org.addRole (.role role)).thrown = none ∧
      (org.addRole (.role role)).org._roles.lookup role.roleId = some role) := by
  have hc := checkIfDeleted_of_not_deleted org h
  have key : (org.addRole (.role role)).org.removeRole (.atom (.string role.roleId))
      = ⟨org, none⟩ := by
    cases ht : org._roles.truthyAt role.roleId with
    | true =>
      have e1 : (org.addRole (.role role)).org = org := by
        simp only [Organization.addRole, hc, ht, if_true]
      rw [e1]
      simp only [Organization.removeRole, hc, JsValue.asString,
        JsObject.deleteKey_of_not_mem _ _ hr]
    | false =>
      have e1 : (org.addRole (.role role)).org
          = { org with _roles := org._roles.assign role.roleId role } := by
        simp only [Organization.addRole, hc, ht, Bool.false_eq_true, if_false]
      rw [e1]
      have hc2 : Organization._checkIfDeleted
          { org with _roles := org._roles.assign role.roleId role } = none :=
        checkIfDeleted_of_not_deleted _ h
      simp only [Organization.removeRole, hc2, JsValue.asString,
        JsObject.deleteKey_assign_new _ _ _ hr]
  refine ⟨key, by rw [key], by rw [key], ?_⟩
  intro hp
  have ht := JsObject.truthyAt_eq_false org._roles role.roleId hr hp
  constructor
  · simp only [Organization.addRole, hc, ht, Bool.false_eq_true, if_false]
  · simp only [Organization.addRole, hc, ht, Bool.false_eq_true, if_false]
    exact JsObject.lookup_assign_self _ _ _

theorem addRole_then_removeRole_restores_witness :
    ((Organization.create "id1" (.atom (.string "Risto"))).addRole
        (.role ⟨"waiter", ["addRole"]⟩)).org.removeRole (.atom (.string "waiter"))
      = ⟨Organization.create "id1" (.atom (.string "Risto")), none⟩ :=
  (addRole_then_removeRole_restores (Organization.create "id1" (.atom (.string "Risto")))
    rfl ⟨"waiter", ["addRole"]⟩ (by decide)).1

/-! ## Order-control store: batched advance -/

theorem updateOne_other_key (db : Table) (s : String) (l : Nat) (n : Option Nat)
    (k : AttributeValue) (h : k ≠ .S s) : (updateOne db s l n).1 k = db k := by
  rw [updateOne_eq]
  by_cases hv : (updateOneParams s l n).valid = true
  · rw [if_pos hv]
    by_cases hc : conditionHolds db s l
    · rw [if_pos hc]; simp [Table.put, h]
    · rw [if_neg hc]
  · rw [if_neg hv]

/-- What `updateOne` does to the record of its stream, and its outcome, depend on that
record only. -/
theorem updateOne_local (db db' : Table) (s : String) (l : Nat) (n : Option Nat)
    (h : db' (.S s) = db (.S s)) :
    (updateOne db' s l n).1 (.S s) = (updateOne db s l n).1 (.S s) ∧
    (updateOne db' s l n).2 = (updateOne db s l n).2 := by
  have hc : conditionHolds db' s l ↔ conditionHolds db s l := by
    unfold conditionHolds lastProcessedEventId wrap1String
    rw [h]
  rw [updateOne_eq, updateOne_eq]
  by_cases hv : (updateOneParams s l n).valid = true
  · rw [if_pos hv, if_pos hv]
    by_cases hd : conditionHolds db s l
    · rw [if_pos hd, if_pos (hc.mpr hd)]
      simp [Table.put, h]
    · rw [if_neg hd, if_neg (fun x => hd (hc.mp x))]
      exact ⟨h, rfl⟩
  · rw [if_neg hv, if_neg hv]
    exact ⟨h, rfl⟩

/-- The updates of a list of entries on pairwise distinct streams: each stream's record and
each outcome are those of the entry's `updateOne` on the initial table, and no other key
changes. -/
theorem updateAll_distinct (entries : List UpdateEntry) :
    ∀ db : Table, (entries.map (fun e => e.streamId)).Nodup →
      (∀ e ∈ entries, (updateAll db entries).1 (.S e.streamId)
        = (updateOne db e.streamId e.last e.new).1 (.S e.streamId)) ∧
      (∀ k, (∀ e ∈ entries, k ≠ .S e.streamId) → (updateAll db entries).1 k = db k) ∧
      (updateAll db entries).2
        = entries.map (fun e => (updateOne db e.streamId e.last e.new).2) := by
  induction entries with
  | nil => intro db _; exact ⟨fun _ he => absurd he (List.not_mem_nil _), fun _ _ => rfl, rfl⟩
  | cons e es ih =>
    intro db hn
    rw [List.map_cons, List.nodup_cons] at hn
    obtain ⟨i1, i2, i3⟩ := ih (updateOne db e.streamId e.last e.new).1 hn.2
    have hne : ∀ e' ∈ es, e'.streamId ≠ e.streamId := by
      intro e' he' heq
      exact hn.1 (heq ▸ List.mem_map_of_mem (fun e => e.streamId) he')
    have hne2 : ∀ e' ∈ es, (AttributeValue.S e.streamId) ≠ .S e'.streamId := by
      intro e' he' heq
      exact hne e' he' (AttributeValue.S.inj heq).symm
    have hsame : ∀ e' ∈ es, (updateOne db e.streamId e.last e.new).1 (.S e'.streamId)
        = db (.S e'.streamId) := by
      intro e' he'
      exact updateOne_other_key db e.streamId e.last e.new _
        (fun heq => hne e' he' (AttributeValue.S.inj heq))
    simp only [updateAll]
    refine ⟨?_, ?_, ?_⟩
    · intro e' he'
      rcases List.mem_cons.mp he' with h | h
      · subst h
        exact i2 _ hne2
      · rw [i1 e' h]
        exact (updateOne_local db _ e'.streamId e'.last e'.new (hsame e' h)).1
    · intro k hk
      rw [i2 k (fun e' he' => hk e' (List.mem_cons_of_mem e he'))]
      exact updateOne_other_key db e.streamId e.last e.new k
        (hk e (List.mem_cons_self e es))
    · rw [i3, List.map_cons]
      congr 1
      apply List.map_congr_left
      intro e' he'
      exact (updateOne_local db _ e'.streamId e'.last e'.new (hsame e' he')).2

/-- C16: for updates on pairwise distinct streams, `updateMultiple(updates)` leaves the
record of each entry's stream exactly as `updateOne(streamId, last, new)` on the initial
table does, so an entry whose condition holds is stored whatever the other entries do and
a failing entry changes nothing; the outcome of each request is that of its `updateOne`
alone; no other record changes; and the object form with the same entries, in whatever
order `Object.keys` lists them, leaves the same table as the array form. -/
theorem updateMultiple_entries_independent (db : Table) (entries : List UpdateEntry)
    (h : (entries.map (fun e => e.streamId)).Nodup) :
    (∀ e ∈ entries, (updateMultiple db (.array entries)).1 (.S e.streamId)
      = (updateOne db e.streamId e.last e.new).1 (.S e.streamId)) ∧
    (∀ k, (∀ e ∈ entries, k ≠ .S e.streamId) →
      (updateMultiple db (.array entries)).1 k = db k) ∧
    (updateMultiple db (.array entries)).2
      = some (entries.map (fun e => (updateOne db e.streamId e.last e.new).2)) ∧
    (∀ keyed : List UpdateEntry, keyed.Perm entries →
      (updateMultiple db (.object keyed)).1 = (updateMultiple db (.array entries)).1) := by
  obtain ⟨h1, h2, h3⟩ := updateAll_distinct entries db h
  refine ⟨h1, h2, by simp only [updateMultiple, h3], ?_⟩
  intro keyed hp
  have hk : (keyed.map (fun e => e.streamId)).Nodup :=
    (hp.map (fun e => e.streamId)).nodup_iff.mpr h
  obtain ⟨g1, g2, _⟩ := updateAll_distinct keyed db hk
  funext k
  simp only [updateMultiple]
  by_cases hex : ∃ e ∈ entries, k = .S e.streamId
  · obtain ⟨e, he, rfl⟩ := hex
    rw [h1 e he, g1 e (hp.mem_iff.mpr he)]
  · have hall : ∀ e ∈ entries, k ≠ .S e.streamId := fun e he heq => hex ⟨e, he, heq⟩
    rw [h2 k hall, g2 k (fun e he => hall e (hp.mem_iff.mp he))]

theorem updateMultiple_entries_independent_witness :
    (updateMultiple emptyTable
        (.array [⟨"s", 0, some 1⟩, ⟨"t", 3, some 4⟩, ⟨"u", 0, none⟩])).1 (.S "u")
      = (updateOne emptyTable "u" 0 none).1 (.S "u") :=
  (updateMultiple_entries_independent emptyTable
    [⟨"s", 0, some 1⟩, ⟨"t", 3, some 4⟩, ⟨"u", 0, none⟩] (by decide)).1
    ⟨"u", 0, none⟩ (by decide)

/-! ## Aggregate repository: append and replay -/

theorem tailRevision_append (log : EventLog) (id : String) (e : Event) :
    tailRevision (fun s => if s = id then log s ++ [e] else log s) id = e.revision := by
  simp [tailRevision]

/-- Serial appends starting from the tail revision all succeed; they add the commands as
payloads, with the next revisions in order, to the stream and to no other. -/
theorem appendAll_ok (id : String) (cmds : List DomainEvent) :
    ∀ (log : EventLog) (m : Nat), tailRevision log id = m →
      ∃ log', appendAll log id m cmds = .ok log' ∧
        (log' id).map (fun e => e.payload) = (log id).map (fun e => e.payload) ++ cmds ∧
        (log' id).map (fun e => e.revision)
          = (log id).map (fun e => e.revision) ++ List.range' (m + 1) cmds.length := by
  induction cmds with
  | nil => intro log m _; exact ⟨log, rfl, by simp, by simp⟩
  | cons c cs ih =>
    intro log m hm
    obtain ⟨log', h1, h2, h3⟩ :=
      ih (fun s => if s = id then log s ++ [⟨id, c, m + 1⟩] else log s) (m + 1)
        (tailRevision_append log id ⟨id, c, m + 1⟩)
    refine ⟨log', ?_, ?_, ?_⟩
    · simp only [appendAll, append, hm, if_true]
      exact h1
    · rw [h2]; simp
    · rw [h3]; simp [List.range'_succ]

theorem roleNames_map : ∀ (rs : List JsAtom) (names : List String),
    roleNames rs = some names → names.map JsAtom.string = rs := by
  intro rs
  induction rs with
  | nil => intro names h; simp only [roleNames, Option.some.injEq] at h; subst h; rfl
  | cons r rest ih =>
    intro names h
    cases r with
    | string s =>
      rw [roleNames] at h
      cases hr : roleNames rest with
      | none => rw [hr] at h; cases h
      | some ns =>
        rw [hr] at h
        simp only [Option.map_some', Option.some.injEq] at h
        subst h
        rw [List.map_cons, ih ns hr]
    | undefined => simp [roleNames] at h
    | null => simp [roleNames] at h
    | boolean b => simp [roleNames] at h
    | number n => simp [roleNames] at h
    | object o => simp [roleNames] at h

/-- A call of `addUser` that throws nothing does what the call without roles does. -/
theorem addUser_of_not_thrown (org : Organization) (userId roles : JsValue)
    (h : (org.addUser userId roles).thrown = none) :
    org.addUser userId (.atom .undefined) = org.addUser userId roles := by
  unfold Organization.addUser at h ⊢
  cases hc : org._checkIfDeleted with
  | some e => rfl
  | none =>
    rw [hc] at h
    simp only at h ⊢
    cases hu : userId.asString with
    | none => rfl
    | some id =>
      rw [hu] at h
      simp only at h ⊢
      by_cases ht : org._users.truthyAt id = true
      · simp only [ht, if_true]
      · simp only [ht, if_false, Bool.false_eq_true] at h ⊢
        by_cases hr : roles.truthy = true
        · simp [hr] at h
        · rw [if_neg hr]
          simp [JsValue.truthy, JsAtom.truthy]

/-- Replay's transition for the payload of a live command that threw nothing is the
command's own call. -/
theorem apply_payload (m : Mutation) (e : DomainEvent) (org : Organization)
    (he : m.payload = some e) (ht : (m.run org).thrown = none) : e.apply org = m.run org := by
  cases m with
  | addRole role =>
    cases role with
    | role r => simp only [Mutation.payload, Option.some.injEq] at he; subst he; rfl
    | atom a => simp [Mutation.payload] at he
    | array l => simp [Mutation.payload] at he
  | removeRole roleId =>
    cases roleId with
    | atom a =>
      cases a <;> simp only [Mutation.payload, Option.some.injEq, reduceCtorEq] at he
      subst he; rfl
    | role r => simp [Mutation.payload] at he
    | array l => simp [Mutation.payload] at he
  | addUser userId roles =>
    cases userId with
    | atom a =>
      cases a <;> simp only [Mutation.payload, Option.some.injEq, reduceCtorEq] at he
      subst he
      exact addUser_of_not_thrown org _ roles ht
    | role r => simp [Mutation.payload] at he
    | array l => simp [Mutation.payload] at he
  | assignRolesToUser userId roles =>
    cases userId with
    | atom a =>
      cases a <;> cases roles <;>
        simp only [Mutation.payload, Option.map_eq_some', reduceCtorEq] at he
      obtain ⟨names, hn, he⟩ := he
      subst he
      simp only [DomainEvent.apply, Mutation.run, roleNames_map _ _ hn]
    | role r => simp [Mutation.payload] at he
    | array l => simp [Mutation.payload] at he
  | removeRolesFromUser userId roles =>
    cases userId with
    | atom a =>
      cases a <;> cases roles <;>
        simp only [Mutation.payload, Option.map_eq_some', reduceCtorEq] at he
      obtain ⟨names, hn, he⟩ := he
      subst he
      simp only [DomainEvent.apply, Mutation.run, roleNames_map _ _ hn]
    | role r => simp [Mutation.payload] at he
    | array l => simp [Mutation.payload] at he
  | removeUser userId =>
    cases userId with
    | atom a =>
      cases a <;> simp only [Mutation.payload, Option.some.injEq, reduceCtorEq] at he
      subst he; rfl
    | role r => simp [Mutation.payload] at he
    | array l => simp [Mutation.payload] at he
  | delete => simp only [Mutation.payload, Option.some.injEq] at he; subst he; rfl

theorem forEachRole_ids (op : JsSet → JsAtom → JsSet) (method : String) (userId : String)
    (rs : List JsAtom) :
    ∀ org : Organization,
      (Organization.forEachRole op method userId org rs).org.orgId = org.orgId ∧
      (Organization.forEachRole op method userId org rs).org.name = org.name := by
  induction rs with
  | nil => intro org; exact ⟨rfl, rfl⟩
  | cons r rest ih =>
    intro org
    rw [Organization.forEachRole]
    split
    · exact ⟨rfl, rfl⟩
    · split
      · exact ⟨rfl, rfl⟩
      · exact ih _

/-- No method of the aggregate changes its id or its name. -/
theorem run_ids (m : Mutation) (org : Organization) :
    (m.run org).org.orgId = org.orgId ∧ (m.run org).org.name = org.name := by
  cases m with
  | addRole role =>
    simp only [Mutation.run, Organization.addRole]
    repeat (first | exact ⟨rfl, rfl⟩ | split)
  | removeRole roleId =>
    simp only [Mutation.run, Organization.removeRole]
    repeat (first | exact ⟨rfl, rfl⟩ | split)
  | addUser userId roles =>
    simp only [Mutation.run, Organization.addUser]
    repeat (first | exact ⟨rfl, rfl⟩ | split)
  | assignRolesToUser userId roles =>
    simp only [Mutation.run, Organization.assignRolesToUser, Organization.changeRolesOfUser]
    repeat (first | exact ⟨rfl, rfl⟩ | exact forEachRole_ids _ _ _ _ _ | split)
  | removeRolesFromUser userId roles =>
    simp only [Mutation.run, Organization.removeRolesFromUser,
      Organization.changeRolesOfUser]
    repeat (first | exact ⟨rfl, rfl⟩ | exact forEachRole_ids _ _ _ _ _ | split)
  | removeUser userId =>
    simp only [Mutation.run, Organization.removeUser]
    repeat (first | exact ⟨rfl, rfl⟩ | split)
  | delete => exact ⟨rfl, rfl⟩

theorem runAll_orgId (org : Organization) (ms : List Mutation) :
    (runAll org ms).orgId = org.orgId := by
  induction ms generalizing org with
  | nil => rfl
  | cons m ms ih => rw [runAll, ih, (run_ids m org).1]

theorem runAll_name (org : Organization) (ms : List Mutation) :
    (runAll org ms).name = org.name := by
  induction ms generalizing org with
  | nil => rfl
  | cons m ms ih => rw [runAll, ih, (run_ids m org).2]

theorem filterMap_payload_length (ms : List Mutation) :
    ∀ org : Organization, validCommands org ms = true →
      (ms.filterMap Mutation.payload).length = ms.length := by
  induction ms with
  | nil => intro _ _; rfl
  | cons m ms ih =>
    intro org h
    simp only [validCommands, Bool.and_eq_true] at h
    obtain ⟨⟨_, hp⟩, hrest⟩ := h
    obtain ⟨e, he⟩ := Option.isSome_iff_exists.mp hp
    rw [List.filterMap_cons_some he, List.length_cons, List.length_cons, ih _ hrest]

/-- Replay of the events recorded for a sequence of valid commands reaches the organization
the commands left in memory. -/
theorem replay_of_validCommands (ms : List Mutation) :
    ∀ (org : Organization) (events : List Event), validCommands org ms = true →
      events.map (fun e => e.payload) = ms.filterMap Mutation.payload →
      replay org events = .ok (runAll org ms) := by
  induction ms with
  | nil =>
    intro org events _ h
    simp only [List.filterMap_nil, List.map_eq_nil_iff] at h
    subst h
    rfl
  | cons m ms ih =>
    intro org events hv h
    simp only [validCommands, Bool.and_eq_true] at hv
    obtain ⟨⟨ht, hp⟩, hrest⟩ := hv
    obtain ⟨p, hp⟩ := Option.isSome_iff_exists.mp hp
    have ht : (m.run org).thrown = none := by
      cases hx : (m.run org).thrown with
      | none => rfl
      | some t => rw [hx] at ht; cases ht
    rw [List.filterMap_cons_some hp] at h
    cases events with
    | nil => cases h
    | cons e es =>
      simp only [List.map_cons, List.cons.injEq] at h
      obtain ⟨h1, h2⟩ := h
      have ha := apply_payload m p org hp ht
      rw [← h1] at ha
      rw [replay, ha, ht, runAll]
      exact ih _ es hrest h2

theorem sorted_of_revisions_range (events : List Event) (s n : Nat)
    (h : events.map (fun e => e.revision) = List.range' s n) :
    events.Sorted (fun a b => a.revision ≤ b.revision) := by
  have h1 : (List.range' s n).Pairwise (fun a b => a ≤ b) :=
    (List.pairwise_lt_range' s n).imp (fun hab => Nat.le_of_lt hab)
  rw [← h, List.pairwise_map] at h1
  exact h1

/-- C18, on the repository as the specification describes it: for every organization id,
every name and every sequence of `N` valid commands, the creation `new Organization(name)`
and `N - 1` calls of its methods applied to it serially, persisting the payload of the
creation and then those of the calls with the expected revisions `0, 1, ..., N - 1`
succeeds; the stream then holds the revisions `1, ..., N` in order, without gap; and
`getAggregate(id)`, replaying the events on a new empty aggregate through the methods of
`Organization`, returns the aggregate equal to the one the calls left in memory (with the
same id, name, status, roles and users), with revision `N`. -/
theorem replay_reproduces_aggregate (uuid id name : String) (ms : List Mutation)
    (h : validCommands (Organization.create id (.atom (.string name))) ms = true) :
    ∃ log,
      appendAll emptyLog id 0 (.organizationCreated id name :: ms.filterMap Mutation.payload)
        = .ok log ∧
      (log id).map (fun e => e.revision) = List.range' 1 (ms.length + 1) ∧
      getAggregate uuid log id
        = .ok (runAll (Organization.create id (.atom (.string name))) ms, ms.length + 1) ∧
      (runAll (Organization.create id (.atom (.string name))) ms).orgId = id ∧
      (runAll (Organization.create id (.atom (.string name))) ms).name
        = .atom (.string name) := by
  obtain ⟨log, h1, h2, h3⟩ :=
    appendAll_ok id (.organizationCreated id name :: ms.filterMap Mutation.payload)
      emptyLog 0 rfl
  have hlen := filterMap_payload_length ms _ h
  have h2' : (log id).map (fun e => e.payload)
      = .organizationCreated id name :: ms.filterMap Mutation.payload := by
    rw [h2]; rfl
  have h3' : (log id).map (fun e => e.revision) = List.range' 1 (ms.length + 1) := by
    rw [h3, List.length_cons, hlen]; rfl
  refine ⟨log, h1, h3', ?_, runAll_orgId _ ms, runAll_name _ ms⟩
  have hs := (sorted_of_revisions_range (log id) 1 (ms.length + 1) h3').insertionSort_eq
  have hlast : ((log id).map (fun e => e.revision)).getLast? = some (ms.length + 1) := by
    rw [h3', List.getLast?_range']
    simp
  have hrep : replay (Organization.create uuid (.atom .undefined)) (log id)
      = .ok (runAll (Organization.create id (.atom (.string name))) ms) := by
    cases hl : log id with
    | nil => rw [hl] at h2'; cases h2'
    | cons e es =>
      rw [hl] at h2'
      simp only [List.map_cons, List.cons.injEq] at h2'
      obtain ⟨he, hes⟩ := h2'
      rw [replay, he]
      exact replay_of_validCommands ms _ es h hes
  unfold getAggregate
  simp only [hs]
  rw [List.getLast?_map] at hlast
  cases hl : (log id).getLast? with
  | none => rw [hl] at hlast; cases hlast
  | some last =>
    rw [hl] at hlast
    simp only [Option.map_some', Option.some.injEq] at hlast
    simp only [hrep, hlast]

theorem replay_reproduces_aggregate_witness :
    ∃ log, appendAll emptyLog "id1" 0
        [.organizationCreated "id1" "Risto", .roleAdded ⟨"waiter", ["addRole"]⟩,
         .userAdded "u1", .rolesAssignedToUser "u1" ["waiter"], .organizationDeleted]
        = .ok log ∧
      getAggregate "id2" log "id1"
        = .ok ({ orgId := "id1", name := .atom (.string "Risto"), status := some "deleted",
                 _roles := [("waiter", ⟨"waiter", ["addRole"]⟩)],
                 _users := [("u1", [.string "waiter"])] }, 5) :=
  (replay_reproduces_aggregate "id2" "id1" "Risto"
    [.addRole (.role ⟨"waiter", ["addRole"]⟩), .addUser (.atom (.string "u1")) (.atom .null),
     .assignRolesToUser (.atom (.string "u1")) (.array [.string "waiter"]), .delete]
    (by decide)).imp
    (fun _ hl => ⟨hl.1, hl.2.2.1⟩)

/-! ## Organization: additions outside the inherited names -/

theorem JsObject.assign_of_not_mem {α : Type} (obj : JsObject α) (k : String) (v : α)
    (h : k ∉ obj.map Prod.fst) : obj.assign k v = obj ++ [(k, v)] := by
  unfold JsObject.assign
  rw [JsObject.lookup_isSome_false_of_not_mem obj k h]
  rfl

/-- Outside the names inherited from `Object.prototype`, `addUser(userId)` without roles for
a user id that is not a key of the users throws nothing; afterwards `users` holds the id
with an empty role list, every other user as before, and the roles are unchanged. -/
theorem addUser_new (org : Organization) (h : org.isDeleted = false) (userId : String)
    (hu : userId ∉ org._users.map Prod.fst) (hp : userId ∉ objectPrototypeKeys) :
    org.addUser (.atom (.string userId)) (.atom .undefined)
      = ⟨{ org with _users := org._users ++ [(userId, [])] }, none⟩ ∧
    (org.addUser (.atom (.string userId)) (.atom .undefined)).org.users.lookup userId
      = some [] ∧
    (∀ v, v ≠ userId →
      (org.addUser (.atom (.string userId)) (.atom .undefined)).org.users.lookup v
        = org.users.lookup v) ∧
    (org.addUser (.atom (.string userId)) (.atom .undefined)).org.roles = org.roles := by
  have hc := checkIfDeleted_of_not_deleted org h
  have ht := JsObject.truthyAt_eq_false org._users userId hu hp
  have key : org.addUser (.atom (.string userId)) (.atom .undefined)
      = ⟨{ org with _users := org._users ++ [(userId, [])] }, none⟩ := by
    simp only [Organization.addUser, hc, JsValue.asString, ht, Bool.false_eq_true, if_false,
      JsValue.truthy, JsAtom.truthy, JsObject.assign_of_not_mem _ _ _ hu]
  refine ⟨key, ?_, ?_, by rw [key]; rfl⟩
  · rw [key]
    unfold Organization.users
    rw [JsObject.lookup_ordered, ← JsObject.assign_of_not_mem _ _ _ hu]
    exact JsObject.lookup_assign_self _ _ _
  · intro v hv
    rw [key]
    unfold Organization.users
    rw [JsObject.lookup_ordered, JsObject.lookup_ordered,
      ← JsObject.assign_of_not_mem _ _ _ hu]
    exact JsObject.lookup_assign_other _ _ _ _ hv

/-- Outside the names inherited from `Object.prototype`, `addRole(role)` for a role whose id
is not a key of the roles throws nothing; afterwards `roles` lists the previous roles and
the new one, each once, and the users are unchanged. -/
theorem addRole_new (org : Organization) (h : org.isDeleted = false) (role : Role)
    (hr : role.roleId ∉ org._roles.map Prod.fst) (hp : role.roleId ∉ objectPrototypeKeys) :
    org.addRole (.role role)
      = ⟨{ org with _roles := org._roles ++ [(role.roleId, role)] }, none⟩ ∧
    (org.addRole (.role role)).org.roles.Perm (role :: org.roles) ∧
    (org.addRole (.role role)).org.users = org.users := by
  have hc := checkIfDeleted_of_not_deleted org h
  have ht := JsObject.truthyAt_eq_false org._roles role.roleId hr hp
  have key : org.addRole (.role role)
      = ⟨{ org with _roles := org._roles ++ [(role.roleId, role)] }, none⟩ := by
    simp only [Organization.addRole, hc, ht, Bool.false_eq_true, if_false,
      JsObject.assign_of_not_mem _ _ _ hr]
  refine ⟨key, ?_, by rw [key]; rfl⟩
  rw [key]
  unfold Organization.roles
  have p1 := (JsObject.ordered_perm (org._roles ++ [(role.roleId, role)])).map
    (fun p : String × Role => p.2)
  have p2 := (JsObject.ordered_perm org._roles).map (fun p : String × Role => p.2)
  refine p1.trans ?_
  rw [List.map_append]
  refine List.perm_append_comm.trans ?_
  exact List.Perm.cons role p2.symm

/-! ## Organization: assigning and then removing roles -/

theorem foldl_delete_eq_filter (rs : List JsAtom) :
    ∀ set : JsSet, rs.foldl JsSet.delete set = set.filter (fun r => r ∉ rs) := by
  induction rs with
  | nil => intro set; simp
  | cons r rest ih =>
    intro set
    rw [List.foldl_cons, ih]
    unfold JsSet.delete
    rw [List.filter_filter]
    apply List.filter_congr
    intro y _
    by_cases hy : y = r
    · simp [hy]
    · by_cases hy2 : y ∈ rest <;> simp [hy, hy2]

theorem mem_of_mem_firstOccurrences (rs : List JsAtom) :
    ∀ x, x ∈ firstOccurrences rs → x ∈ rs := by
  induction rs with
  | nil => intro x hx; exact hx
  | cons r rest ih =>
    intro x hx
    rw [firstOccurrences_cons, List.mem_cons] at hx
    rcases hx with hx | hx
    · exact hx ▸ List.mem_cons_self _ _
    · exact List.mem_cons_of_mem _ (ih x (List.mem_of_mem_filter hx))

/-- Removing the elements of `rs` after adding them leaves the roles held before that are
not in `rs`. -/
theorem foldl_delete_foldl_add (held : JsSet) (rs : List JsAtom) :
    rs.foldl JsSet.delete (rs.foldl JsSet.add held) = rolesAfterRemove held rs := by
  rw [foldl_delete_eq_filter, foldl_add_eq_rolesAfterAssign]
  unfold rolesAfterAssign rolesAfterRemove
  rw [List.filter_append]
  have h : ((firstOccurrences rs).filter (fun r => r ∉ held)).filter (fun r => r ∉ rs)
      = [] := by
    rw [List.filter_eq_nil_iff]
    intro x hx
    have := mem_of_mem_firstOccurrences rs x (List.mem_of_mem_filter hx)
    simp [this]
  rw [h, List.append_nil]

/-- C21: on an organization that is not deleted, for an existing user whose role list is
`held` and a non-empty list `rs` of ids of existing roles, `assignRolesToUser(u, rs)`
followed by `removeRolesFromUser(u, rs)` throws nothing and leaves `users[u]` equal to the
roles of `held` that are not in `rs`, which is no role at all when `held` was empty; every
other user has the role list it had and the roles are unchanged. -/
theorem assign_then_remove_roles (org : Organization) (h : org.isDeleted = false)
    (userId : String) (held : List JsAtom) (hu : org.users.lookup userId = some held)
    (rs : List String) (hne : rs ≠ []) (hrs : ∀ r ∈ rs, r ∈ org._roles.map Prod.fst) :
    (org.assignRolesToUser (.atom (.string userId)) (.array (rs.map JsAtom.string))).thrown
      = none ∧
    ((org.assignRolesToUser (.atom (.string userId))
        (.array (rs.map JsAtom.string))).org.removeRolesFromUser (.atom (.string userId))
          (.array (rs.map JsAtom.string))).thrown = none ∧
    ((org.assignRolesToUser (.atom (.string userId))
        (.array (rs.map JsAtom.string))).org.removeRolesFromUser (.atom (.string userId))
          (.array (rs.map JsAtom.string))).org.users.lookup userId
      = some (rolesAfterRemove held (rs.map JsAtom.string)) ∧
    (held = [] →
      ((org.assignRolesToUser (.atom (.string userId))
          (.array (rs.map JsAtom.string))).org.removeRolesFromUser (.atom (.string userId))
            (.array (rs.map JsAtom.string))).org.users.lookup userId = some []) ∧
    (∀ v, v ≠ userId →
      ((org.assignRolesToUser (.atom (.string userId))
          (.array (rs.map JsAtom.string))).org.removeRolesFromUser (.atom (.string userId))
            (.array (rs.map JsAtom.string))).org.users.lookup v = org.users.lookup v) ∧
    ((org.assignRolesToUser (.atom (.string userId))
        (.array (rs.map JsAtom.string))).org.removeRolesFromUser (.atom (.string userId))
          (.array (rs.map JsAtom.string))).org.roles = org.roles := by
  have hu2 : org._users.lookup userId = some held := by
    rw [← JsObject.lookup_ordered]; exact hu
  have hroles : ∀ r ∈ rs.map JsAtom.string, org._roles.truthyAt r.toPropertyKey = true := by
    intro r hr
    obtain ⟨id, hid, rfl⟩ := List.mem_map.mp hr
    exact JsObject.truthyAt_of_mem_keys _ _ (hrs id hid)
  unfold Organization.assignRolesToUser Organization.removeRolesFromUser
  rw [changeRolesOfUser_eq_forEachRole JsSet.add "add" org h userId held hu2 rs hne]
  obtain ⟨a1, a2, a3, a4, _, _, a7⟩ :=
    forEachRole_ok JsSet.add "add" userId (rs.map JsAtom.string) org held hu2 hroles
  have hd : (Organization.forEachRole JsSet.add "add" userId org
      (rs.map JsAtom.string)).org.isDeleted = false := by
    unfold Organization.isDeleted at h ⊢
    rw [a7]; exact h
  rw [changeRolesOfUser_eq_forEachRole JsSet.delete "delete" _ hd userId _ a2 rs hne]
  obtain ⟨b1, b2, b3, b4, _, _, _⟩ :=
    forEachRole_ok JsSet.delete "delete" userId (rs.map JsAtom.string) _ _ a2
      (by rw [a4]; exact hroles)
  have key : (Organization.forEachRole JsSet.delete "delete" userId
      (Organization.forEachRole JsSet.add "add" userId org (rs.map JsAtom.string)).org
      (rs.map JsAtom.string)).org.users.lookup userId
        = some (rolesAfterRemove held (rs.map JsAtom.string)) := by
    unfold Organization.users
    rw [JsObject.lookup_ordered, b2, foldl_delete_foldl_add]
  refine ⟨a1, b1, key, ?_, ?_, ?_⟩
  · intro he
    rw [key, he]
    rfl
  · intro v hv
    unfold Organization.users
    rw [JsObject.lookup_ordered, JsObject.lookup_ordered, b3 v hv, a3 v hv]
  · unfold Organization.roles
    rw [b4, a4]

theorem assign_then_remove_roles_witness :
    (((((Organization.create "id1" (.atom (.string "Risto"))).addRole
        (.role ⟨"waiter", ["addRole"]⟩)).org.addUser (.atom (.string "u1"))
          (.atom .undefined)).org.assignRolesToUser (.atom (.string "u1"))
            (.array (["waiter"].map JsAtom.string))).org.removeRolesFromUser
              (.atom (.string "u1")) (.array (["waiter"].map JsAtom.string))).thrown
      = none :=
  (assign_then_remove_roles
    (((Organization.create "id1" (.atom (.string "Risto"))).addRole
        (.role ⟨"waiter", ["addRole"]⟩)).org.addUser (.atom (.string "u1"))
          (.atom .undefined)).org
    rfl "u1" [] (by rw [Organization.users, JsObject.lookup_ordered]; decide)
    ["waiter"] (by decide) (by decide)).2.1

/-! ## Organization: serialisation -/

/-- C22 at the failing input: `toJSON()` of `new Organization('Risto')`, which has no role
and no user, returns an object with the four fields `orgId`, `name`, `roles` and `users`,
the last two holding no element. -/
theorem toJSON_always_has_roles_and_users :
    (Organization.create "id1" (.atom (.string "Risto"))).toJSON
      = [("orgId", .string "id1"), ("name", .value (.atom (.string "Risto"))),
         ("roles", .roles []), ("users", .users [])] := by
  decide

/-! ## Organization: a role change that throws -/

/-- One turn of the loop over the roles, for an element that names a role and a user that is
a key of the users. -/
theorem forEachRole_cons_ok (op : JsSet → JsAtom → JsSet) (method userId : String)
    (org : Organization) (r : JsAtom) (rest : List JsAtom) (set : JsSet)
    (ht : org._roles.truthyAt r.toPropertyKey = true)
    (hs : org._users.lookup userId = some set) :
    Organization.forEachRole op method userId org (r :: rest)
      = Organization.forEachRole op method userId
          { org with _users := org._users.assign userId (op set r) } rest := by
  rw [Organization.forEachRole]
  simp only [ht, Bool.not_true, Bool.false_eq_true, if_false, hs]

theorem forEachRole_cons_absent (op : JsSet → JsAtom → JsSet) (method userId : String)
    (org : Organization) (r : JsAtom) (rest : List JsAtom)
    (ht : org._roles.truthyAt r.toPropertyKey = false) :
    Organization.forEachRole op method userId org (r :: rest)
      = ⟨org, some (.organizationError .roleDoesNotExistError
          ("role " ++ r.toPropertyKey ++ " does not exist in the organization"))⟩ := by
  rw [Organization.forEachRole]
  simp only [ht, Bool.not_false, if_true]

theorem forEachRole_cons_no_set (op : JsSet → JsAtom → JsSet) (method userId : String)
    (org : Organization) (r : JsAtom) (rest : List JsAtom)
    (ht : org._roles.truthyAt r.toPropertyKey = true)
    (hs : org._users.lookup userId = none) :
    Organization.forEachRole op method userId org (r :: rest)
      = ⟨org, some (.typeError ("this._users[userId]." ++ method ++ " is not a function"))⟩ := by
  rw [Organization.forEachRole]
  simp only [ht, Bool.not_true, Bool.false_eq_true, if_false, hs]

/-- The loop over the roles, thrown or not, writes nothing but the set of the user. -/
theorem forEachRole_frame (op : JsSet → JsAtom → JsSet) (method userId : String)
    (rs : List JsAtom) :
    ∀ org : Organization,
      (Organization.forEachRole op method userId org rs).org._roles = org._roles ∧
      (Organization.forEachRole op method userId org rs).org.orgId = org.orgId ∧
      (Organization.forEachRole op method userId org rs).org.name = org.name ∧
      (Organization.forEachRole op method userId org rs).org.status = org.status ∧
      (∀ v, v ≠ userId →
        (Organization.forEachRole op method userId org rs).org._users.lookup v
          = org._users.lookup v) := by
  induction rs with
  | nil => intro org; exact ⟨rfl, rfl, rfl, rfl, fun _ _ => rfl⟩
  | cons r rest ih =>
    intro org
    cases ht : org._roles.truthyAt r.toPropertyKey with
    | false =>
      rw [forEachRole_cons_absent op method userId org r rest ht]
      exact ⟨rfl, rfl, rfl, rfl, fun _ _ => rfl⟩
    | true =>
      cases hs : org._users.lookup userId with
      | none =>
        rw [forEachRole_cons_no_set op method userId org r rest ht hs]
        exact ⟨rfl, rfl, rfl, rfl, fun _ _ => rfl⟩
      | some set =>
        rw [forEachRole_cons_ok op method userId org r rest set ht hs]
        obtain ⟨h1, h2, h3, h4, h5⟩ :=
          ih { org with _users := org._users.assign userId (op set r) }
        refine ⟨h1, h2, h3, h4, ?_⟩
        intro v hv
        rw [h5 v hv]
        exact JsObject.lookup_assign_other _ _ _ _ hv

/-- When the loop over the roles throws, it throws at one element, and the organization is
the one the loop over the elements before that one leaves, which throws nothing. -/
theorem forEachRole_thrown (op : JsSet → JsAtom → JsSet) (method userId : String)
    (rs : List JsAtom) :
    ∀ org : Organization, (Organization.forEachRole op method userId org rs).thrown ≠ none →
      ∃ done x rest, rs = done ++ x :: rest ∧
        (Organization.forEachRole op method userId org done).thrown = none ∧
        (Organization.forEachRole op method userId org rs).org
          = (Organization.forEachRole op method userId org done).org := by
  induction rs with
  | nil => intro org h; exact absurd rfl h
  | cons r rest ih =>
    intro org h
    cases ht : org._roles.truthyAt r.toPropertyKey with
    | false =>
      refine ⟨[], r, rest, rfl, rfl, ?_⟩
      rw [forEachRole_cons_absent op method userId org r rest ht]; rfl
    | true =>
      cases hs : org._users.lookup userId with
      | none =>
        refine ⟨[], r, rest, rfl, rfl, ?_⟩
        rw [forEachRole_cons_no_set op method userId org r rest ht hs]; rfl
      | some set =>
        rw [forEachRole_cons_ok op method userId org r rest set ht hs] at h ⊢
        obtain ⟨done, x, rest', e, h1, h2⟩ := ih _ h
        refine ⟨r :: done, x, rest', by rw [e]; rfl, ?_, ?_⟩
        · rw [forEachRole_cons_ok op method userId org r done set ht hs]; exact h1
        · rw [forEachRole_cons_ok op method userId org r done set ht hs]; exact h2

/-- `assignRolesToUser` and `removeRolesFromUser`, once their checks are passed, are the
loop over the roles. -/
theorem changeRolesOfUser_checked (op : JsSet → JsAtom → JsSet) (method : String)
    (org : Organization) (id r : String) (rest : List JsAtom)
    (hc : org._checkIfDeleted = none) (ht : org._users.truthyAt id = true) :
    Organization.changeRolesOfUser op method org (.atom (.string id))
        (.array (.string r :: rest))
      = Organization.forEachRole op method id org (.string r :: rest) := by
  simp only [Organization.changeRolesOfUser, hc, JsValue.asString, ht, Bool.not_true,
    Bool.false_eq_true, if_false]

/-- `assignRolesToUser` and `removeRolesFromUser` either throw in their checks, before
anything is written, or pass them: the user id is a string for which the lookup in the
users is truthy, and the roles are an array whose first element is a string. -/
theorem changeRolesOfUser_cases (op : JsSet → JsAtom → JsSet) (method : String)
    (org : Organization) (userId roles : JsValue) :
    (∃ e, Organization.changeRolesOfUser op method org userId roles = ⟨org, some e⟩) ∨
    (∃ id r rest, userId = .atom (.string id) ∧ roles = .array (.string r :: rest) ∧
      org._checkIfDeleted = none ∧ org._users.truthyAt id = true) := by
  cases hc : org._checkIfDeleted with
  | some e => exact Or.inl ⟨e, by simp only [Organization.changeRolesOfUser, hc]⟩
  | none =>
    have hparam : ∀ u : JsValue, u.asString = none →
        Organization.changeRolesOfUser op method org u roles
          = ⟨org, some (.organizationError .paramError "userId must be a string")⟩ := by
      intro u hu
      simp only [Organization.changeRolesOfUser, hc, hu]
    cases userId with
    | role r => exact Or.inl ⟨_, hparam _ rfl⟩
    | array xs => exact Or.inl ⟨_, hparam _ rfl⟩
    | atom a =>
      cases a with
      | undefined => exact Or.inl ⟨_, hparam _ rfl⟩
      | null => exact Or.inl ⟨_, hparam _ rfl⟩
      | boolean b => exact Or.inl ⟨_, hparam _ rfl⟩
      | number n => exact Or.inl ⟨_, hparam _ rfl⟩
      | object ref => exact Or.inl ⟨_, hparam _ rfl⟩
      | string id =>
        cases ht : org._users.truthyAt id with
        | false =>
          exact Or.inl ⟨.organizationError .userDoesNotExistError
            ("user with id " ++ id ++ " does not exist in the organization"),
            by simp only [Organization.changeRolesOfUser, hc, JsValue.asString, ht,
              Bool.not_false, if_true]⟩
        | true =>
          have hroles : ∀ v : JsValue, (∀ r rest, v ≠ .array (.string r :: rest)) →
              Organization.changeRolesOfUser op method org (.atom (.string id)) v
                = ⟨org, some (.organizationError .paramError
                    "roles must be a non empty array of role names")⟩ := by
            intro v hv
            unfold Organization.changeRolesOfUser
            simp only [hc, JsValue.asString, ht, Bool.not_true, Bool.false_eq_true, if_false]
          cases roles with
          | atom a => exact Or.inl ⟨_, hroles _ (fun _ _ e => JsValue.noConfusion e)⟩
          | role r => exact Or.inl ⟨_, hroles _ (fun _ _ e => JsValue.noConfusion e)⟩
          | array xs =>
            cases xs with
            | nil => exact Or.inl ⟨_, hroles _ (fun _ _ e => by cases e)⟩
            | cons x rest =>
              cases x with
              | string r => exact Or.inr ⟨id, r, rest, rfl, rfl, rfl, ht⟩
              | undefined => exact Or.inl ⟨_, hroles _ (fun _ _ e => by cases e)⟩
              | null => exact Or.inl ⟨_, hroles _ (fun _ _ e => by cases e)⟩
              | boolean b => exact Or.inl ⟨_, hroles _ (fun _ _ e => by cases e)⟩
              | number n => exact Or.inl ⟨_, hroles _ (fun _ _ e => by cases e)⟩
              | object ref => exact Or.inl ⟨_, hroles _ (fun _ _ e => by cases e)⟩

/-- What a role change that throws leaves behind: the roles, the name, the status, the id
and the role sets of all other users are untouched; the organization is either exactly as
before the call, or as the same call with only the elements of `roles` before the one at
which it threw leaves it, that call throwing nothing. -/
theorem changeRolesOfUser_failed (op : JsSet → JsAtom → JsSet) (method : String)
    (org : Organization) (userId roles : JsValue)
    (h : (Organization.changeRolesOfUser op method org userId roles).thrown ≠ none) :
    (Organization.changeRolesOfUser op method org userId roles).org._roles = org._roles ∧
    (Organization.changeRolesOfUser op method org userId roles).org.name = org.name ∧
    (Organization.changeRolesOfUser op method org userId roles).org.status = org.status ∧
    (Organization.changeRolesOfUser op method org userId roles).org.orgId = org.orgId ∧
    (∀ v, userId ≠ .atom (.string v) →
      (Organization.changeRolesOfUser op method org userId roles).org._users.lookup v
        = org._users.lookup v) ∧
    ((Organization.changeRolesOfUser op method org userId roles).org = org ∨
      ∃ done x rest, done ≠ [] ∧ roles = .array (done ++ x :: rest) ∧
        (Organization.changeRolesOfUser op method org userId (.array done)).thrown = none ∧
        (Organization.changeRolesOfUser op method org userId roles).org
          = (Organization.changeRolesOfUser op method org userId (.array done)).org) := by
  rcases changeRolesOfUser_cases op method org userId roles
    with ⟨e, he⟩ | ⟨id, r, rest, hid, hr, hc, ht⟩
  · rw [he]
    exact ⟨rfl, rfl, rfl, rfl, fun _ _ => rfl, Or.inl rfl⟩
  · subst hid hr
    have he := changeRolesOfUser_checked op method org id r rest hc ht
    rw [he] at h ⊢
    obtain ⟨f1, f2, f3, f4, f5⟩ := forEachRole_frame op method id (.string r :: rest) org
    obtain ⟨done, x, rest', e, t1, t2⟩ :=
      forEachRole_thrown op method id (.string r :: rest) org h
    refine ⟨f1, f3, f4, f2, ?_, ?_⟩
    · intro v hv
      exact f5 v (fun hvid => hv (by rw [hvid]))
    · cases done with
      | nil => left; rw [t2]; rfl
      | cons d ds =>
        right
        have hd : JsAtom.string r = d := List.head_eq_of_cons_eq e
        subst hd
        refine ⟨.string r :: ds, x, rest', List.cons_ne_nil _ _, by rw [e], ?_, ?_⟩
        · rw [changeRolesOfUser_checked op method org id r ds hc ht]; exact t1
        · rw [changeRolesOfUser_checked op method org id r ds hc ht]; exact t2

/-- C24 as stated fails: the organization has the role `waiter` and the user `u1` with no
role; `assignRolesToUser('u1', ['waiter', 'ghost'])` throws the role-does-not-exist error
for `ghost` after `waiter` was added to the roles of `u1`. -/
theorem failed_role_change_has_effect :
    ¬ ∀ (org : Organization) (userId roles : JsValue),
        ((org.assignRolesToUser userId roles).thrown ≠ none →
          (org.assignRolesToUser userId roles).org._roles = org._roles ∧
          (org.assignRolesToUser userId roles).org._users = org._users) ∧
        ((org.removeRolesFromUser userId roles).thrown ≠ none →
          (org.removeRolesFromUser userId roles).org._roles = org._roles ∧
          (org.removeRolesFromUser userId roles).org._users = org._users) := by
  intro h
  have h1 := (h (((Organization.create "id1" (.atom (.string "Risto"))).addRole
      (.role ⟨"waiter", ["addRole"]⟩)).org.addUser (.atom (.string "u1"))
        (.atom .undefined)).org
    (.atom (.string "u1")) (.array [.string "waiter", .string "ghost"])).1 (by decide)
  revert h1
  decide

/-- C24, amended: whenever `assignRolesToUser` or `removeRolesFromUser` throws, the roles,
the name, the status, the id and the role sets of all users other than the one named in the
call are what they were before the call; the organization is either exactly what it was
before the call, or what the same call with only the elements of `roles` before the one at
which the error was thrown leaves, that call throwing nothing. -/
theorem failed_role_change_keeps_done_part (org : Organization) (userId roles : JsValue) :
    ((org.assignRolesToUser userId roles).thrown ≠ none →
      (org.assignRolesToUser userId roles).org._roles = org._roles ∧
      (org.assignRolesToUser userId roles).org.name = org.name ∧
      (org.assignRolesToUser userId roles).org.status = org.status ∧
      (org.assignRolesToUser userId roles).org.orgId = org.orgId ∧
      (∀ v, userId ≠ .atom (.string v) →
        (org.assignRolesToUser userId roles).org._users.lookup v = org._users.lookup v) ∧
      ((org.assignRolesToUser userId roles).org = org ∨
        ∃ done x rest, done ≠ [] ∧ roles = .array (done ++ x :: rest) ∧
          (org.assignRolesToUser userId (.array done)).thrown = none ∧
          (org.assignRolesToUser userId roles).org
            = (org.assignRolesToUser userId (.array done)).org)) ∧
    ((org.removeRolesFromUser userId roles).thrown ≠ none →
      (org.removeRolesFromUser userId roles).org._roles = org._roles ∧
      (org.removeRolesFromUser userId roles).org.name = org.name ∧
      (org.removeRolesFromUser userId roles).org.status = org.status ∧
      (org.removeRolesFromUser userId roles).org.orgId = org.orgId ∧
      (∀ v, userId ≠ .atom (.string v) →
        (org.removeRolesFromUser userId roles).org._users.lookup v = org._users.lookup v) ∧
      ((org.removeRolesFromUser userId roles).org = org ∨
        ∃ done x rest, done ≠ [] ∧ roles = .array (done ++ x :: rest) ∧
          (org.removeRolesFromUser userId (.array done)).thrown = none ∧
          (org.removeRolesFromUser userId roles).org
            = (org.removeRolesFromUser userId (.array done)).org)) :=
  ⟨fun h => changeRolesOfUser_failed JsSet.add "add" org userId roles h,
   fun h => changeRolesOfUser_failed JsSet.delete "delete" org userId roles h⟩

theorem failed_role_change_keeps_done_part_witness :
    ((((Organization.create "id1" (.atom (.string "Risto"))).addRole
        (.role ⟨"waiter", ["addRole"]⟩)).org.addUser (.atom (.string "u1"))
          (.atom .undefined)).org.assignRolesToUser (.atom (.string "u1"))
            (.array [.string "waiter", .string "ghost"])).org._roles
      = [("waiter", ⟨"waiter", ["addRole"]⟩)] :=
  ((failed_role_change_keeps_done_part
    (((Organization.create "id1" (.atom (.string "Risto"))).addRole
        (.role ⟨"waiter", ["addRole"]⟩)).org.addUser (.atom (.string "u1"))
          (.atom .undefined)).org
    (.atom (.string "u1")) (.array [.string "waiter", .string "ghost"])).1
      (by decide)).1

/-! ## Organization: roles held by users along sequences of calls -/

theorem mem_of_lookup_eq_some {α : Type} (l : List (String × α)) (k : String) (v : α)
    (h : l.lookup k = some v) : (k, v) ∈ l := by
  induction l with
  | nil => cases h
  | cons p rest ih =>
    obtain ⟨a, w⟩ := p
    by_cases hk : k = a
    · subst hk
      simp only [List.lookup_cons, beq_self_eq_true, Option.some.injEq] at h
      rw [h]; exact List.mem_cons_self _ _
    · have h1 : (k == a) = false := beq_eq_false_iff_ne.mpr hk
      simp only [List.lookup_cons, h1] at h
      exact List.mem_cons_of_mem _ (ih h)

theorem JsObject.mem_assign {α : Type} (obj : JsObject α) (k : String) (v : α)
    (p : String × α) (h : p ∈ obj.assign k v) : p ∈ obj ∨ p = (k, v) := by
  unfold JsObject.assign at h
  split at h
  · obtain ⟨q, hq, e⟩ := List.mem_map.mp h
    by_cases hk : (q.1 == k) = true
    · rw [if_pos hk] at e; exact Or.inr e.symm
    · rw [if_neg hk] at e; exact Or.inl (e ▸ hq)
  · rcases List.mem_append.mp h with h | h
    · exact Or.inl h
    · exact Or.inr (List.mem_singleton.mp h)

theorem JsObject.truthyAt_assign_of_truthyAt {α : Type} (obj : JsObject α) (k k' : String)
    (v : α) (h : obj.truthyAt k' = true) : (obj.assign k v).truthyAt k' = true := by
  unfold JsObject.truthyAt at h ⊢
  by_cases hk : k' = k
  · subst hk; rw [JsObject.lookup_assign_self]; rfl
  · rw [JsObject.lookup_assign_other _ _ _ _ hk]; exact h

theorem JsObject.truthyAt_deleteKey_of_ne {α : Type} (obj : JsObject α) (k k' : String)
    (hk : k' ≠ k) : (obj.deleteKey k).truthyAt k' = obj.truthyAt k' := by
  unfold JsObject.truthyAt JsObject.deleteKey
  rw [lookup_filter_key (fun key => key != k)]
  have : (k' != k) = true := by simpa using hk
  rw [this]; rfl

theorem forEachRole_heldRolesKnown (op : JsSet → JsAtom → JsSet)
    (hop : ∀ set r x, x ∈ op set r → x ∈ set ∨ x = r) (method userId : String)
    (rs : List JsAtom) :
    ∀ org : Organization, HeldRolesKnown org →
      HeldRolesKnown (Organization.forEachRole op method userId org rs).org := by
  induction rs with
  | nil => intro org h; exact h
  | cons r rest ih =>
    intro org h
    cases ht : org._roles.truthyAt r.toPropertyKey with
    | false => rw [forEachRole_cons_absent op method userId org r rest ht]; exact h
    | true =>
      cases hs : org._users.lookup userId with
      | none => rw [forEachRole_cons_no_set op method userId org r rest ht hs]; exact h
      | some set =>
        rw [forEachRole_cons_ok op method userId org r rest set ht hs]
        apply ih
        intro p hp x hx
        rcases JsObject.mem_assign _ _ _ _ hp with hp | hp
        · exact h p hp x hx
        · subst hp
          rcases hop set r x hx with hx | hx
          · exact h _ (mem_of_lookup_eq_some _ _ _ hs) x hx
          · rw [hx]; exact ht

theorem JsSet.mem_add (set : JsSet) (r x : JsAtom) (h : x ∈ JsSet.add set r) :
    x ∈ set ∨ x = r := by
  unfold JsSet.add at h
  split at h
  · exact Or.inl h
  · rcases List.mem_append.mp h with h | h
    · exact Or.inl h
    · exact Or.inr (List.mem_singleton.mp h)

theorem JsSet.mem_delete (set : JsSet) (r x : JsAtom) (h : x ∈ JsSet.delete set r) :
    x ∈ set ∨ x = r :=
  Or.inl (List.mem_of_mem_filter h)

theorem changeRolesOfUser_heldRolesKnown (op : JsSet → JsAtom → JsSet)
    (hop : ∀ set r x, x ∈ op set r → x ∈ set ∨ x = r) (method : String)
    (org : Organization) (userId roles : JsValue) (h : HeldRolesKnown org) :
    HeldRolesKnown (Organization.changeRolesOfUser op method org userId roles).org := by
  rcases changeRolesOfUser_cases op method org userId roles
    with ⟨e, he⟩ | ⟨id, r, rest, hid, hr, hc, ht⟩
  · rw [he]; exact h
  · subst hid hr
    rw [changeRolesOfUser_checked op method org id r rest hc ht]
    exact forEachRole_heldRolesKnown op hop method id _ org h

theorem not_roleInUse (org : Organization) (id : String) (h : org.roleInUse id = false) :
    ∀ p ∈ org._users, ∀ r ∈ p.2, r.toPropertyKey ≠ id := by
  intro p hp r hr e
  have : org.roleInUse id = true := by
    unfold Organization.roleInUse
    rw [List.any_eq_true]
    exact ⟨p, hp, by rw [List.any_eq_true]; exact ⟨r, hr, by simpa using e⟩⟩
  rw [h] at this
  cases this

/-- A call that does not take away a role in use keeps every held role id known. -/
theorem Mutation.run_heldRolesKnown (m : Mutation) (org : Organization)
    (hm : m.removesRoleInUse org = false) (h : HeldRolesKnown org) :
    HeldRolesKnown (m.run org).org := by
  cases hd : org.isDeleted with
  | true =>
    have hc := checkIfDeleted_of_deleted org hd
    cases m with
    | addRole role => simp only [Mutation.run, Organization.addRole, hc]; exact h
    | removeRole roleId => simp only [Mutation.run, Organization.removeRole, hc]; exact h
    | addUser userId roles => simp only [Mutation.run, Organization.addUser, hc]; exact h
    | assignRolesToUser userId roles =>
      exact changeRolesOfUser_heldRolesKnown _ JsSet.mem_add _ org userId roles h
    | removeRolesFromUser userId roles =>
      exact changeRolesOfUser_heldRolesKnown _ JsSet.mem_delete _ org userId roles h
    | removeUser userId => simp only [Mutation.run, Organization.removeUser, hc]; exact h
    | delete => exact h
  | false =>
    have hc := checkIfDeleted_of_not_deleted org hd
    cases m with
    | addRole role =>
      simp only [Mutation.run, Organization.addRole, hc]
      cases role with
      | atom a => exact h
      | array xs => exact h
      | role r =>
        cases ht : org._roles.truthyAt r.roleId with
        | true => simp only [ht, if_true]; exact h
        | false =>
          simp only [ht, Bool.false_eq_true, if_false]
          intro p hp x hx
          exact JsObject.truthyAt_assign_of_truthyAt _ _ _ _ (h p hp x hx)
    | removeRole roleId =>
      simp only [Mutation.run, Organization.removeRole, hc]
      cases hs : roleId.asString with
      | none => exact h
      | some id =>
        have hid : roleId = .atom (.string id) := by
          cases roleId with
          | atom a => cases a <;> simp [JsValue.asString] at hs; rw [hs]
          | role r => simp [JsValue.asString] at hs
          | array xs => simp [JsValue.asString] at hs
        subst hid
        have hu : org.roleInUse id = false := by
          simpa [Mutation.removesRoleInUse, hd] using hm
        intro p hp x hx
        show (org._roles.deleteKey id).truthyAt x.toPropertyKey = true
        rw [JsObject.truthyAt_deleteKey_of_ne _ _ _ (not_roleInUse org id hu p hp x hx)]
        exact h p hp x hx
    | addUser userId roles =>
      simp only [Mutation.run, Organization.addUser, hc]
      cases hs : userId.asString with
      | none => exact h
      | some id =>
        cases ht : org._users.truthyAt id with
        | true => simp only [ht, if_true]; exact h
        | false =>
          have key : HeldRolesKnown { org with _users := org._users.assign id [] } := by
            intro p hp x hx
            rcases JsObject.mem_assign _ _ _ _ hp with hp | hp
            · exact h p hp x hx
            · subst hp; cases hx
          cases hr : roles.truthy <;> simpa [ht, hr] using key
    | assignRolesToUser userId roles =>
      exact changeRolesOfUser_heldRolesKnown _ JsSet.mem_add _ org userId roles h
    | removeRolesFromUser userId roles =>
      exact changeRolesOfUser_heldRolesKnown _ JsSet.mem_delete _ org userId roles h
    | removeUser userId =>
      simp only [Mutation.run, Organization.removeUser, hc]
      cases hs : userId.asString with
      | none => exact h
      | some id =>
        cases ht : org._users.truthyAt id with
        | false => simp only [ht, Bool.not_false, if_true]; exact h
        | true =>
          simp only [ht, Bool.not_true, Bool.false_eq_true, if_false]
          intro p hp x hx
          exact h p (List.mem_of_mem_filter hp) x hx
    | delete => exact h

theorem runAll_heldRolesKnown (ms : List Mutation) :
    ∀ org : Organization, sparing org ms = true → HeldRolesKnown org →
      HeldRolesKnown (runAll org ms) := by
  induction ms with
  | nil => intro org _ h; exact h
  | cons m rest ih =>
    intro org hs h
    simp only [sparing, Bool.and_eq_true, Bool.not_eq_true'] at hs
    exact ih _ hs.2 (Mutation.run_heldRolesKnown m org hs.1 h)

/-- C23 as stated fails: after `addRole(waiter)`, `addUser('u1')`,
`assignRolesToUser('u1', ['waiter'])` and `removeRole('waiter')` on a new organization the
user `u1` holds the role id `waiter`, and the organization has no role. -/
theorem held_role_can_be_removed :
    ¬ ∀ (uuid : String) (name : JsValue) (ms : List Mutation),
        ∀ p ∈ (runAll (Organization.create uuid name) ms)._users, ∀ r ∈ p.2,
          r.toPropertyKey ∈ (runAll (Organization.create uuid name) ms)._roles.map Prod.fst := by
  intro h
  have h1 := h "id1" (.atom (.string "Risto"))
    [.addRole (.role ⟨"waiter", ["addRole"]⟩), .addUser (.atom (.string "u1")) (.atom .undefined),
     .assignRolesToUser (.atom (.string "u1")) (.array [.string "waiter"]),
     .removeRole (.atom (.string "waiter"))]
    ("u1", [.string "waiter"]) (by decide) (.string "waiter") (by decide)
  revert h1
  decide

/-- C23, amended: in every state reachable from a newly constructed organization through a
sequence of `addRole`, `removeRole`, `addUser`, `assignRolesToUser`, `removeRolesFromUser`,
`removeUser` and `delete` calls in which no `removeRole` takes away a role that a user holds
at that moment, every role id held by a user, unless it is a name inherited from
`Object.prototype`, is the id of a role currently in the organization. -/
theorem held_roles_exist (uuid : String) (name : JsValue) (ms : List Mutation)
    (h : sparing (Organization.create uuid name) ms = true) :
    ∀ p ∈ (runAll (Organization.create uuid name) ms)._users, ∀ r ∈ p.2,
      r.toPropertyKey ∉ objectPrototypeKeys →
      r.toPropertyKey ∈ (runAll (Organization.create uuid name) ms)._roles.map Prod.fst := by
  have h0 : HeldRolesKnown (Organization.create uuid name) := by
    intro p hp
    cases hp
  intro p hp r hr hproto
  have ht := runAll_heldRolesKnown ms _ h h0 p hp r hr
  unfold JsObject.truthyAt at ht
  rw [Bool.or_eq_true] at ht
  rcases ht with ht | ht
  · exact (lookup_isSome_iff_mem_keys _ _).mp ht
  · exact absurd (by simpa using ht) hproto

theorem held_roles_exist_witness :
    "waiter" ∈ (runAll (Organization.create "id1" (.atom (.string "Risto")))
        [.addRole (.role ⟨"waiter", ["addRole"]⟩),
         .addUser (.atom (.string "u1")) (.atom .undefined),
         .assignRolesToUser (.atom (.string "u1")) (.array [.string "waiter"]),
         .removeRole (.atom (.string "cook")), .delete])._roles.map Prod.fst :=
  held_roles_exist "id1" (.atom (.string "Risto"))
    [.addRole (.role ⟨"waiter", ["addRole"]⟩),
     .addUser (.atom (.string "u1")) (.atom .undefined),
     .assignRolesToUser (.atom (.string "u1")) (.array [.string "waiter"]),
     .removeRole (.atom (.string "cook")), .delete]
    (by decide) ("u1", [.string "waiter"]) (by decide) (.string "waiter") (by decide)
    (by decide)

/-! ## `permissionChecker.js`: lemmas -/

theorem JsObject.ordered_singleton {α : Type} (p : String × α) :
    JsObject.ordered [p] = [p] := by
  unfold JsObject.ordered
  cases h : arrayIndex p.1 <;> simp [List.filter_cons, h]

/-- The middleware calls `next` without error exactly when the map of permissions, which
keeps for each name the permission set last, holds under the name of some definition a
permission whose parameters agree with the request on every name of `params`. -/
theorem checkPermission_next_iff (permissionDefs : List PermissionDefinition)
    (params : List String) (req : Request) (m : PermissionMap)
    (hm : req.jwtPermissions = some m) :
    (checkPermission permissionDefs params req).2 = .next ↔
      ∃ d ∈ permissionDefs, ∃ perm, m.lookup d.name = some perm ∧
        ∀ p ∈ params, perm.parameters p = req.paramValue p := by
  unfold checkPermission
  simp only [hm]
  constructor
  · intro h
    split at h
    · cases h
    · rename_i hany
      simp only [Bool.not_eq_true, Bool.not_eq_false', List.any_eq_true] at hany
      obtain ⟨d, hd, hperm⟩ := hany
      cases hl : m.lookup d.name with
      | none => rw [hl] at hperm; cases hperm
      | some perm =>
        rw [hl] at hperm
        refine ⟨d, hd, perm, hl, ?_⟩
        intro p hp
        have := List.all_eq_true.mp hperm p hp
        simpa using this
  · rintro ⟨d, hd, perm, hl, hall⟩
    have hany : (permissionDefs.any (fun permDef =>
        match m.lookup permDef.name with
        | none => false
        | some perm => params.all (fun p => perm.parameters p == req.paramValue p)))
        = true := by
      rw [List.any_eq_true]
      refine ⟨d, hd, ?_⟩
      rw [hl]
      rw [List.all_eq_true]
      intro p hp
      simpa using hall p hp
    rw [hany]
    rfl

/-- C25 at the failing input: the token has under one key of `roles` two roles, each with a
permission named `addRole`, the first with parameter `orgId` equal to `a`, the second with
`b`; the definition asked for is `addRole`, the parameter `orgId`, and the request has
`params.orgId` equal to `a`. The token holds a matching permission, yet the middleware calls
`next` with the not-authorized error: the map keeps for the name `addRole` only the
permission set last. -/
theorem checkPermission_same_name_overwritten :
    (checkPermission [⟨"addRole"⟩] ["orgId"]
      { authorization := none
        params := fun p => if p = "orgId" then .string "a" else .undefined
        fields := fun _ => .undefined
        token := none
        jwtPayload := some
          { exp := some 2000
            roles := some [("org1", .list
              [⟨[⟨"addRole", fun p => if p = "orgId" then .string "a" else .undefined⟩]⟩,
               ⟨[⟨"addRole", fun p => if p = "orgId" then .string "b" else .undefined⟩]⟩])] }
        jwtPermissions := none }).2
      = .nextError .notAuthorizedError := by
  unfold checkPermission allPermissions
  simp only [Option.getD_some, JsObject.ordered_singleton]
  decide

/-- On a request without `jwtPayload`, `verifyToken` calls `next` without error exactly when
the header carries a bearer token that `jwts.verify` accepts with a payload that is not
expired at the time of the call. -/
theorem verifyToken_first_next_iff (verify : String → Option JwtPayload) (now : Nat)
    (req : Request) (h : req.jwtPayload = none) :
    (verifyToken verify now req).2 = .next ↔
      ∃ token payload, bearerToken req.authorization = some token ∧
        verify token = some payload ∧ payload.expired now = false := by
  unfold verifyToken
  simp only [h]
  cases hb : bearerToken req.authorization with
  | none => simp
  | some token =>
    cases hv : verify token with
    | none => simp [hv]
    | some payload =>
      cases he : payload.expired now <;> simp [he, hv]

/-- C26 at the failing input: the request has no `jwtPayload` and the header `Bearer t`;
`jwts.verify` accepts `t` with a payload whose `exp` is `1000`, and the time is `2000`. The
first invocation of `verifyToken` calls `next` with the token-expired error, the second
one calls `next` with no error. -/
theorem verifyToken_twice_accepts_expired :
    verifyTokenRepeatedly (fun _ => some { exp := some 1000, roles := none })
      { authorization := some "Bearer t"
        params := fun _ => .undefined
        fields := fun _ => .undefined
        token := none
        jwtPayload := none
        jwtPermissions := none } [2000, 2000]
      = [.nextError .tokenExpiredError, .next] := by
  decide

end AuthService
